import Mathlib

/-!
Verification development for the reference-resolution engine of the
openapi-utils repository (package `pkg/openapi`, command `oas-yaml-combine`).

The development has three layers:

* Path algebra: a character-level embedding of the pure string functions of
  `pkg/openapi/ref_utils.go` (`isLocalReference`, `splitReferenceByHash`,
  `getDocumentPath`, `getPathToReference`, `convertRemoteToLocalPath`,
  `referencePathToItems`, `sortReferences`).

* `Oas` namespace: an embedding of the resolution engine of
  `pkg/openapi/document.go` (the iteration whose `Config` carries
  `InlineLocalRefs`): `parseOASObject` with `parsePtrItem` / `parseMapItem` /
  `parseSliceItem`, `getItemByPath` with `getFieldByTag` /
  `itemFromMapByName`, `replaceReference`, `assignReference`,
  `getReferencedDocument`, `ResolveReferences` and `ParseDocument`.
  Go data reachable by the `reflect`-based walk is modelled by the
  inductive `GoVal`; pointer mutation through `reflect.Value.Set` /
  `SetMapIndex` is modelled by functional update at the tree path that the
  mutated parent occupies inside the document root, and the per-`Document`
  `ReferencedDocuments` map together with file reads is modelled by
  explicit state threading (a cache association list, plus a chronological
  log of file-parse events used to observe how often a file is parsed).
  Unbounded recursion (reference cycles across files) is modelled by a fuel
  parameter; `errFuel` marks fuel exhaustion and is never produced on the
  concrete inputs used in the theorems below.

* `Spec` namespace: the repository's final resolution orchestrator
  (the one compiled against by `cmd/oas-yaml-combine/main.go`, whose
  `Config` carries `KeepLocalRefs`, and the caller of
  `convertRemoteToLocalPath` and `OasObject.Unset`) is not present in the
  source snapshot; its behaviour is modelled from the specification
  (sections 4.2, 4.3, 4.5) and marked `Modelled from the spec:` on each
  definition.
-/

/-! ### Path algebra (pkg/openapi/ref_utils.go)

Go's `strings.Split(s, sep)` for a one-character separator, modelled at the
character-list level.  `goSplitCharsCore` returns the first field and the
remaining fields; `goSplitChars` is the full (always non-empty) field list,
so `goSplitChars sep s = strings.Split(s, string(sep))`.  Note
`strings.Split("", sep) = [""]`, matched by `goSplitChars sep [] = [[]]`. -/

def goSplitCharsCore (sep : Char) : List Char → List Char × List (List Char)
  | [] => ([], [])
  | c :: cs =>
    let r := goSplitCharsCore sep cs
    if c = sep then ([], r.1 :: r.2) else (c :: r.1, r.2)

def goSplitChars (sep : Char) (l : List Char) : List (List Char) :=
  (goSplitCharsCore sep l).1 :: (goSplitCharsCore sep l).2

/-- Go's `strings.IndexRune(s, r)`: index of the first occurrence of `r`,
`-1` when absent.  Go returns a byte offset while this model counts
characters; the two agree on whether the result is `0`, which is the only
use the source makes of it (`isLocalReference`). -/
def goIndexOfChar (sep : Char) : List Char → Int
  | [] => -1
  | c :: cs =>
    if c = sep then 0
    else
      let r := goIndexOfChar sep cs
      if r = -1 then -1 else r + 1

/-- `isLocalReference` (ref_utils.go): `strings.IndexRune(path, '#') == 0`. -/
def isLocalReference (path : String) : Bool :=
  goIndexOfChar '#' path.data == 0

/-- `splitReferenceByHash` (ref_utils.go): `strings.Split(path, "#")`. -/
def splitReferenceByHash (path : String) : List String :=
  (goSplitChars '#' path.data).map String.mk

/-- `getDocumentPath` (ref_utils.go): `splitReferenceByHash(path)[0]`.
The split result is never empty, so indexing cannot fail. -/
def getDocumentPath (path : String) : String :=
  (splitReferenceByHash path).headD ""

/-- `getPathToReference` (ref_utils.go).  For a path without `'#'` the Go
code panics on the out-of-range index `[1]`; the model returns `""` there;
every use in the source is guarded by the presence of `'#'`. -/
def getPathToReference (path : String) : String :=
  if isLocalReference path then path else (splitReferenceByHash path).getD 1 ""

/-- `convertRemoteToLocalPath` (ref_utils.go):
`fmt.Sprintf("%s%s", "#", getPathToReference(path))`. -/
def convertRemoteToLocalPath (path : String) : String :=
  "#" ++ getPathToReference path

/-- `referencePathToItems` (ref_utils.go):
`strings.Split(getPathToReference(path), "/")[1:]`. -/
def referencePathToItems (path : String) : List String :=
  ((goSplitChars '/' (getPathToReference path).data).map String.mk).drop 1

/-! ### Go value model for the reflect-based engine (pkg/openapi/document.go)

`GoVal` models a Go value as seen by the engine's `reflect` switches:
`vstr` a `string` (kind String), `vscalar` any other scalar kind (bool,
int, ...; the payload records `reflect.Value.IsZero`), `vnil` a nil
pointer/map/slice (`IsZero` true and never descended into), `vrec` a
non-nil pointer to struct (each field carries its Go field name, its yaml
key — the tag up to the first comma, as extracted by
`getYamlKeyFromField` — and its value), `vmap` a `map[string]T` as an
association list in iteration order, and `vslice` a slice. -/

inductive GoVal where
  | vstr : String → GoVal
  | vscalar : Bool → GoVal
  | vnil : GoVal
  | vrec : List (String × String × GoVal) → GoVal
  | vmap : List (String × GoVal) → GoVal
  | vslice : List GoVal → GoVal
deriving Repr

namespace Oas

/-- `reflect.Value.IsZero` on the modelled kinds: `""` for strings, the
recorded flag for other scalars, true for nil pointers/maps/slices, false
for non-nil composites. -/
def goIsZero : GoVal → Bool
  | .vstr s => s == ""
  | .vscalar z => z
  | .vnil => true
  | .vrec _ => false
  | .vmap _ => false
  | .vslice _ => false

/-- A step selecting a child inside a `GoVal` tree: a struct field (by Go
field name), a map entry (by key), or a slice element (by index). -/
inductive GoSel where
  | field : String → GoSel
  | key : String → GoSel
  | elem : Nat → GoSel
deriving Repr, DecidableEq

/-- `oasObject` (document.go): parent plus either a field/key name or a
slice index.  The Go struct holds an `interface{}` pointer to the parent;
the model identifies that parent by its path inside the document tree,
`none` standing for the `*Document` itself (whose only walked field is
`Root`). -/
structure oasObject where
  parentPath : Option (List GoSel)
  name : String
  idx : Nat
deriving Repr, DecidableEq

/-- `reference` (document.go): an object that contains a reference, and the
reference path found in it. -/
structure reference where
  object : oasObject
  path : String
deriving Repr, DecidableEq

/-- `Config` (document.go, the iteration under verification): only
`InlineLocalRefs`. -/
structure Config where
  InlineLocalRefs : Bool
deriving Repr, DecidableEq

/-- Error outcomes of the engine.  Each constructor stands for one family
of `fmt.Errorf` results (or a runtime panic, `errPanic`, on code paths the
engine never exercises); `errFuel` is the fuel-exhaustion marker of the
embedding. -/
inductive GoErr where
  | errRead : GoErr
  | errParentKind : GoErr
  | errFieldKind : GoErr
  | errKeyMissing : GoErr
  | errItemPath : GoErr
  | errPanic : GoErr
  | errFuel : GoErr
deriving Repr, DecidableEq

/-- Look up a struct field by Go field name (`reflect.Value.FieldByName`). -/
def lookupField (n : String) : List (String × String × GoVal) → Option GoVal
  | [] => none
  | (goName, _, v) :: rest => if goName == n then some v else lookupField n rest

/-- Look up a struct field by yaml key (`getFieldByTag`, document.go). -/
def lookupYaml (n : String) : List (String × String × GoVal) → Option GoVal
  | [] => none
  | (_, yamlKey, v) :: rest => if yamlKey == n then some v else lookupYaml n rest

/-- `itemFromMapByName` (document.go): scan the map entries for the key. -/
def itemFromMapByName (n : String) : List (String × GoVal) → Option GoVal
  | [] => none
  | (k, v) :: rest => if k == n then some v else itemFromMapByName n rest

/-- One navigation step: the child of `t` selected by `s`. -/
def childGo (t : GoVal) (s : GoSel) : Option GoVal :=
  match t, s with
  | .vrec fs, .field n => lookupField n fs
  | .vmap es, .key k => itemFromMapByName k es
  | .vslice xs, .elem i => xs.get? i
  | _, _ => none

/-- Navigate a `GoVal` tree along a selector path. -/
def navGo : List GoSel → GoVal → Option GoVal
  | [], t => some t
  | s :: rest, t => do
    let c ← childGo t s
    navGo rest c

/-- Replace a struct field's value in place, keeping field order. -/
def writeField (n : String) (c : GoVal) :
    List (String × String × GoVal) → Option (List (String × String × GoVal))
  | [] => none
  | (goName, yamlKey, w) :: rest =>
    if goName == n then some ((goName, yamlKey, c) :: rest)
    else
      match writeField n c rest with
      | some rest2 => some ((goName, yamlKey, w) :: rest2)
      | none => none

/-- Replace a map entry's value in place, keeping entry order. -/
def writeEntry (k : String) (c : GoVal) :
    List (String × GoVal) → Option (List (String × GoVal))
  | [] => none
  | (k0, w) :: rest =>
    if k0 == k then some ((k0, c) :: rest)
    else
      match writeEntry k c rest with
      | some rest2 => some ((k0, w) :: rest2)
      | none => none

/-- Replace a slice element in place. -/
def writeElem (i : Nat) (c : GoVal) : List GoVal → Option (List GoVal)
  | [] => none
  | x :: rest =>
    match i with
    | 0 => some (c :: rest)
    | j + 1 =>
      match writeElem j c rest with
      | some rest2 => some (x :: rest2)
      | none => none

/-- One write-back step: `t` with its `s`-child replaced by `c`. -/
def setChildGo (t : GoVal) (s : GoSel) (c : GoVal) : Option GoVal :=
  match t, s with
  | .vrec fs, .field n => (writeField n c fs).map .vrec
  | .vmap es, .key k => (writeEntry k c es).map .vmap
  | .vslice xs, .elem i => (writeElem i c xs).map .vslice
  | _, _ => none

/-- Replace the value at a selector path (the functional reading of a write
through the aliased `reflect` parent).  Fails when the path does not
address an existing location.  `GoVal` does not track Go's static types,
so the assignability check that `reflect.Value.Set` / `SetMapIndex`
performs (panicking when the written value's type is not assignable to
the field/map/slice element type) is not modelled here; every write
exercised by the theorems below stores a `*Response` into a
`map[string]*Response`, for which Go's check succeeds, so the untyped
write coincides with the source's behaviour on those runs. -/
def setGo : List GoSel → GoVal → GoVal → Option GoVal
  | [], v, _ => some v
  | s :: rest, v, t => do
    let c ← childGo t s
    let c2 ← setGo rest v c
    setChildGo t s c2

/-- Generic association-list lookup (used for the file system model and for
`ReferencedDocuments`). -/
def lookupAssoc {α : Type} (k : String) : List (String × α) → Option α
  | [] => none
  | (k0, v) :: rest => if k0 == k then some v else lookupAssoc k rest

/-- `parsePtrItem` (document.go): scan the struct fields in declaration
order; a non-zero string field named `Ref` makes the node reference-only
and discards the collected composite field names; otherwise collect every
non-zero composite field for descent. -/
def parsePtrItem : List (String × String × GoVal) → String × List String
  | [] => ("", [])
  | (goName, _, v) :: rest =>
    if goIsZero v then parsePtrItem rest
    else
      match v with
      | .vstr s => if goName == "Ref" then (s, []) else parsePtrItem rest
      | .vrec _ => keepComposite goName (parsePtrItem rest)
      | .vmap _ => keepComposite goName (parsePtrItem rest)
      | .vslice _ => keepComposite goName (parsePtrItem rest)
      | _ => parsePtrItem rest
where
  /-- A composite field reached before any `Ref` is collected; one reached
  after a `Ref` was found never happens (the scan returned already). -/
  keepComposite (goName : String) (pr : String × List String) : String × List String :=
    if pr.1 == "" then (pr.1, goName :: pr.2) else pr

/-- `parseMapItem` (document.go): a non-zero string entry under key `Ref`
is recorded as a reference of the map node itself; non-zero composite
entries are collected for descent. -/
def parseMapItem : List (String × GoVal) → List String × List String
  | [] => ([], [])
  | (k, v) :: rest =>
    let pm := parseMapItem rest
    if goIsZero v then pm
    else
      match v with
      | .vstr s => if k == "Ref" then (s :: pm.1, pm.2) else pm
      | .vrec _ => (pm.1, k :: pm.2)
      | .vmap _ => (pm.1, k :: pm.2)
      | .vslice _ => (pm.1, k :: pm.2)
      | _ => pm

/-- Helper of `parseSliceItem` carrying the element index. -/
def parseSliceItemAux (i : Nat) : List GoVal → List String × List Nat
  | [] => ([], [])
  | v :: rest =>
    let ps := parseSliceItemAux (i + 1) rest
    if goIsZero v then ps
    else
      match v with
      | .vstr s => if s == "Ref" then (s :: ps.1, ps.2) else ps
      | .vrec _ => (ps.1, i :: ps.2)
      | .vmap _ => (ps.1, i :: ps.2)
      | .vslice _ => (ps.1, i :: ps.2)
      | _ => ps

/-- `parseSliceItem` (document.go).  Note the source compares the element's
string *value* against `"Ref"` (not a key), and is embedded as written. -/
def parseSliceItem (xs : List GoVal) : List String × List Nat :=
  parseSliceItemAux 0 xs

/-- `getFieldFromParent` / `oasObject.Get` (document.go): fetch the value
the object addresses, and report the tree path it occupies (the model of
its `reflect` identity).  A missing struct field yields Go's invalid
`reflect.Value`, which the caller's kind switch turns into the
could-not-parse error (`errFieldKind`); a missing map key is
`itemFromMapByName`'s error; a non-container parent is
`getFieldFromParent`'s own error. -/
def getObjectValue (root : GoVal) (obj : oasObject) : Except GoErr (GoVal × List GoSel) :=
  match obj.parentPath with
  | none => if obj.name == "Root" then .ok (root, []) else .error .errPanic
  | some p =>
    match navGo p root with
    | none => .error .errPanic
    | some parent =>
      match parent with
      | .vrec fs =>
        match lookupField obj.name fs with
        | some v => .ok (v, p ++ [.field obj.name])
        | none => .error .errFieldKind
      | .vmap es =>
        match itemFromMapByName obj.name es with
        | some v => .ok (v, p ++ [.key obj.name])
        | none => .error .errKeyMissing
      | .vslice xs =>
        match xs.get? obj.idx with
        | some v => .ok (v, p ++ [.elem obj.idx])
        | none => .error .errPanic
      | _ => .error .errParentKind

/-- Recurse into the named children of a composite, accumulating their
references in order (the loops of `parseOASObject`'s Ptr and Map cases). -/
def parseChildrenByName (rec : oasObject → Except GoErr (List reference))
    (ipath : List GoSel) : List String → Except GoErr (List reference)
  | [] => .ok []
  | n :: rest => do
    let rs ← rec ⟨some ipath, n, 0⟩
    let more ← parseChildrenByName rec ipath rest
    .ok (rs ++ more)

/-- Recurse into the indexed children of a slice (the loop of
`parseOASObject`'s Slice case). -/
def parseChildrenByIdx (rec : oasObject → Except GoErr (List reference))
    (ipath : List GoSel) : List Nat → Except GoErr (List reference)
  | [] => .ok []
  | i :: rest => do
    let rs ← rec ⟨some ipath, "", i⟩
    let more ← parseChildrenByIdx rec ipath rest
    .ok (rs ++ more)

/-- One unfolding of `parseOASObject` (document.go), parameterised by the
recursive call. -/
def parseOASObjectStep (rec : oasObject → Except GoErr (List reference))
    (root : GoVal) (obj : oasObject) : Except GoErr (List reference) := do
  let iv ← getObjectValue root obj
  match iv.1 with
  | .vrec fs =>
    let pr := parsePtrItem fs
    if pr.1 == "" then parseChildrenByName rec iv.2 pr.2
    else .ok [⟨obj, pr.1⟩]
  | .vmap es =>
    let pm := parseMapItem es
    do
      let childRefs ← parseChildrenByName rec iv.2 pm.2
      .ok (pm.1.map (fun rp => ⟨obj, rp⟩) ++ childRefs)
  | .vslice xs =>
    let ps := parseSliceItem xs
    do
      let childRefs ← parseChildrenByIdx rec iv.2 ps.2
      .ok (ps.1.map (fun rp => ⟨obj, rp⟩) ++ childRefs)
  | _ => .error .errFieldKind

/-- `parseOASObject` (document.go): the recursive discovery walk, with
fuel bounding the recursion depth. -/
def parseOASObject : Nat → GoVal → oasObject → Except GoErr (List reference)
  | 0, _, _ => .error .errFuel
  | fuel + 1, root, obj => parseOASObjectStep (parseOASObject fuel root) root obj

/-- The segment loop of `getItemByPath` (document.go): walk by yaml tag
through struct pointers (`getFieldByTag`) and by key through maps
(`itemFromMapByName`); any other kind on the way is the incorrect-items
error. -/
def getItemByPathAux : List String → GoVal → Except GoErr GoVal
  | [], cur => .ok cur
  | n :: rest, cur =>
    match cur with
    | .vrec fs =>
      match lookupYaml n fs with
      | some v => getItemByPathAux rest v
      | none => .error .errItemPath
    | .vmap es =>
      match itemFromMapByName n es with
      | some v => getItemByPathAux rest v
      | none => .error .errKeyMissing
    | _ => .error .errItemPath

/-- `getItemByPath` (document.go): `referencePathToItems` then the walk
from the document root. -/
def getItemByPath (root : GoVal) (refPath : String) : Except GoErr GoVal :=
  getItemByPathAux (referencePathToItems refPath) root

/-- `replaceReference` (document.go): switch on the parent's kind and
write through it; a parent that is none of slice, pointer or map falls
through the switch and the function returns nil without mutating
anything.  (A nil pointer parent or a missing struct field would panic in
Go — `errPanic` — but neither is reachable from discovered references.
Go's other panic on these writes — assigning a value whose type is not
assignable to the map/field/slice element type — is not modelled, see
`setGo`; every write the theorems below perform is between assignable
types, matching the source's successful path.) -/
def replaceReference (root : GoVal) (obj : oasObject) (v : GoVal) : Except GoErr GoVal :=
  match obj.parentPath with
  | none => if obj.name == "Root" then .ok v else .error .errPanic
  | some p =>
    match navGo p root with
    | none => .error .errPanic
    | some parent =>
      match parent with
      | .vslice _ =>
        match setGo (p ++ [.elem obj.idx]) v root with
        | some root2 => .ok root2
        | none => .error .errPanic
      | .vrec fs =>
        match lookupField obj.name fs with
        | some _ =>
          match setGo (p ++ [.field obj.name]) v root with
          | some root2 => .ok root2
          | none => .error .errPanic
        | none => .error .errPanic
      | .vmap es =>
        match itemFromMapByName obj.name es with
        | some _ =>
          match setGo (p ++ [.key obj.name]) v root with
          | some root2 => .ok root2
          | none => .error .errPanic
        | none => .error .errKeyMissing
      | .vnil => .error .errPanic
      | _ => .ok root

/-- `filepath.Dir`, modelled for the clean relative paths used here: the
part before the last `/`, or `.` when there is no `/`. -/
def goDirPath (p : String) : String :=
  let parts := (goSplitChars '/' p.data).map String.mk
  if parts.length ≤ 1 then "." else String.intercalate "/" parts.dropLast

/-- `filepath.Join(dir, p)`, modelled for the clean relative paths used
here (`Join(".", p) = Clean("./p") = p`). -/
def goJoinPath (dir p : String) : String :=
  if dir == "" || dir == "." then p else dir ++ "/" ++ p

/-- `sortReferences` (ref_utils.go): the comparator handed to
`sort.Slice` — `refI` sorts before `refJ` exactly when `refI` is remote
and `refJ` is local. -/
def sortReferences (refI refJ : reference) : Bool :=
  !(isLocalReference refI.path) && isLocalReference refJ.path

/-- Stable insertion of one element (Go's `insertionSort` moves an element
left only past strictly greater elements). -/
def insertRef (x : reference) : List reference → List reference
  | [] => [x]
  | y :: ys => if sortReferences y x then y :: insertRef x ys else x :: y :: ys

/-- The `sort.Slice(refs, sortReferences...)` call of `ResolveReferences`,
evaluated as a stable insertion sort: Go's sort dispatches to insertion
sort on the short slices arising in every concrete run below, and
`sortReferences` is a strict weak order, for which the sorted stable
result is unique. -/
def sortRefsGo : List reference → List reference
  | [] => []
  | x :: xs => insertRef x (sortRefsGo xs)

/-- The outcome of resolving one document: its final root, its
`ReferencedDocuments` cache, the chronological log of every file-parse
event that happened on behalf of this document (nested ones included), and
the sub-list of files this document's own loop parsed directly (ghost
observation of the cache-miss branch of `getReferencedDocument`). -/
structure ResolveOut where
  root : GoVal
  cache : List (String × GoVal)
  plog : List String
  direct : List String
deriving Repr

/-- The file system: parsed content by file path (`ioutil.ReadFile` +
`yaml.Unmarshal` of `ReadFile`, as one step). -/
abbrev goFS := List (String × GoVal)

/-- `assignReference` together with the inlined `getReferencedDocument`
(document.go): a local path resolves against the current document; a
remote path is joined to the ref directory, served from the
`ReferencedDocuments` cache when present, and otherwise parsed via `pd`
(the `ParseDocument` of the enclosing session, fuel already applied) and
stored in the cache.  Then the target item is fetched by path from the
referenced document and written over the reference object. -/
def assignReference (pd : String → Except GoErr (GoVal × List String))
    (refDir : String) (root : GoVal) (cache : List (String × GoVal))
    (ref : reference) :
    Except GoErr (GoVal × List (String × GoVal) × List String × List String) :=
  if isLocalReference ref.path then
    match getItemByPath root ref.path with
    | .error e => .error e
    | .ok item =>
      match replaceReference root ref.object item with
      | .error e => .error e
      | .ok root2 => .ok (root2, cache, [], [])
  else
    match lookupAssoc (goJoinPath refDir (getDocumentPath ref.path)) cache with
    | some cachedRoot =>
      match getItemByPath cachedRoot ref.path with
      | .error e => .error e
      | .ok item =>
        match replaceReference root ref.object item with
        | .error e => .error e
        | .ok root2 => .ok (root2, cache, [], [])
    | none =>
      match pd (goJoinPath refDir (getDocumentPath ref.path)) with
      | .error e => .error e
      | .ok pr =>
        match getItemByPath pr.1 ref.path with
        | .error e => .error e
        | .ok item =>
          match replaceReference root ref.object item with
          | .error e => .error e
          | .ok root2 =>
            .ok (root2, cache ++ [(goJoinPath refDir (getDocumentPath ref.path), pr.1)],
              pr.2, [goJoinPath refDir (getDocumentPath ref.path)])

/-- The reference loop of `ResolveReferences` (document.go): skip a local
reference when `InlineLocalRefs` is set, otherwise assign it. -/
def processRefs (pd : String → Except GoErr (GoVal × List String))
    (cfg : Config) (refDir : String) :
    List reference → GoVal → List (String × GoVal) → Except GoErr ResolveOut
  | [], root, cache => .ok ⟨root, cache, [], []⟩
  | ref :: rest, root, cache =>
    if cfg.InlineLocalRefs && isLocalReference ref.path then
      processRefs pd cfg refDir rest root cache
    else
      match assignReference pd refDir root cache ref with
      | .error e => .error e
      | .ok step =>
        match processRefs pd cfg refDir rest step.1 step.2.1 with
        | .error e => .error e
        | .ok out =>
          .ok ⟨out.root, out.cache, step.2.2.1 ++ out.plog, step.2.2.2 ++ out.direct⟩

/-- `ResolveReferences` (document.go) on an already-parsed root:
discovery, the sort, then the loop. -/
def ResolveReferencesCore (pd : String → Except GoErr (GoVal × List String))
    (dfuel : Nat) (cfg : Config) (refDir : String) (root0 : GoVal) :
    Except GoErr ResolveOut :=
  match parseOASObject dfuel root0 ⟨none, "Root", 0⟩ with
  | .error e => .error e
  | .ok refs => processRefs pd cfg refDir (sortRefsGo refs) root0 []

/-- `ParseDocument` (document.go): `NewDocument cfg` (fresh, empty
`ReferencedDocuments`), `ReadFile path` (which sets the ref directory to
the file's directory and records one parse event), then
`ResolveReferences`. -/
def ParseDocument : Nat → Config → goFS → String → Except GoErr (GoVal × List String)
  | 0, _, _, _ => .error .errFuel
  | fuel + 1, cfg, fs, path =>
    match lookupAssoc path fs with
    | none => .error .errRead
    | some parsed =>
      match ResolveReferencesCore (ParseDocument fuel cfg fs) fuel cfg (goDirPath path) parsed with
      | .error e => .error e
      | .ok out => .ok (out.root, path :: out.plog)

/-- `ResolveReferences` of a root `Document` whose content and ref
directory were supplied by the caller (the CLI's stdin path). -/
def ResolveReferences (fuel : Nat) (cfg : Config) (fs : goFS) (refDir : String)
    (root0 : GoVal) : Except GoErr ResolveOut :=
  ResolveReferencesCore (ParseDocument fuel cfg fs) fuel cfg refDir root0

/-- The reference field of a node, when the node is a struct whose `Ref`
string field is set: the observation the claims about pointer rewriting
are phrased through. -/
def nodeRefString : GoVal → Option String
  | .vrec fs =>
    match lookupField "Ref" fs with
    | some (.vstr s) => if s == "" then none else some s
    | _ => none
  | _ => none

/-- `nodeRefString` of the node at a navigation path. -/
def refStringAt (root : GoVal) (p : List GoSel) : Option (Option String) :=
  (navGo p root).map nodeRefString

end Oas

/-! ### The final orchestrator, modelled from the spec

The repository's final `document.go` — the iteration that
`cmd/oas-yaml-combine/main.go` (whose `Config` carries `KeepLocalRefs`)
compiles against, the caller of `convertRemoteToLocalPath`,
`OasObject.Init` and `OasObject.Unset` — is not part of the source
snapshot; only its callers and helper declarations are.  This namespace
models that orchestrator from the specification: document trees are the
closed node-kind set of §9 (records and keyed maps both addressed by
external key, sequences, scalars, plus the zero value written by
`clear()`), a reference-only node is its own constructor (§4.3: sibling
fields of a present reference are ignored), locations are the path of the
node from the document root (§4.2's parent-plus-selector handle read
functionally), and resolution follows §4.5 step by step. -/

namespace Spec

/-- Modelled from the spec: the document tree node kinds (§3, §9), with
`null` the zero value `clear()` writes and `ref` a reference-only node. -/
inductive SNode where
  | null : SNode
  | scalar : String → SNode
  | ref : String → SNode
  | obj : List (String × SNode) → SNode
  | arr : List SNode → SNode
deriving Repr

/-- A selector: an external key into a record/keyed map, or a sequence
index. -/
inductive Seg where
  | key : String → Seg
  | idx : Nat → Seg
deriving Repr, DecidableEq

/-- Association lookup among a record's / keyed map's entries. -/
def lookupS (k : String) : List (String × SNode) → Option SNode
  | [] => none
  | (k0, v) :: rest => if k0 == k then some v else lookupS k rest

/-- Replace an entry's value, keeping entry order. -/
def writeS (k : String) (c : SNode) : List (String × SNode) → Option (List (String × SNode))
  | [] => none
  | (k0, v) :: rest =>
    if k0 == k then some ((k0, c) :: rest)
    else
      match writeS k c rest with
      | some rest2 => some ((k0, v) :: rest2)
      | none => none

/-- Replace a sequence element. -/
def writeElemS (i : Nat) (c : SNode) : List SNode → Option (List SNode)
  | [] => none
  | x :: rest =>
    match i with
    | 0 => some (c :: rest)
    | j + 1 =>
      match writeElemS j c rest with
      | some rest2 => some (x :: rest2)
      | none => none

/-- One step of `get()` on an Addressable Location (§4.2). -/
def getChildS (t : SNode) (s : Seg) : Option SNode :=
  match t, s with
  | .obj fs, .key k => lookupS k fs
  | .arr xs, .idx i => xs.get? i
  | _, _ => none

/-- One step of `set()` on an Addressable Location (§4.2). -/
def setChildS (t : SNode) (s : Seg) (c : SNode) : Option SNode :=
  match t, s with
  | .obj fs, .key k => (writeS k c fs).map .obj
  | .arr xs, .idx i => (writeElemS i c xs).map .arr
  | _, _ => none

/-- Modelled from the spec: `get()` along a location path (§4.2). -/
def getLoc : List Seg → SNode → Option SNode
  | [], t => some t
  | s :: rest, t => (getChildS t s).bind (getLoc rest)

/-- Modelled from the spec: `set(value)` at a location path (§4.2); fails
when the path does not address an existing location. -/
def setLoc : List Seg → SNode → SNode → Option SNode
  | [], v, _ => some v
  | s :: rest, v, t =>
    match getChildS t s with
    | none => none
    | some c =>
      match setLoc rest v c with
      | none => none
      | some c2 => setChildS t s c2

/-- Modelled from the spec: `init()`-then-`set()` (§4.2, §4.5 remote
branch): like `setLoc`, but a missing or zero keyed location on the way is
first constructed as an empty container before descending, so that a
"components" area absent from the target document is materialised. -/
def setCreate : List Seg → SNode → SNode → Option SNode
  | [], v, _ => some v
  | Seg.key k :: rest, v, t =>
    match t with
    | .obj fs =>
      match lookupS k fs with
      | some c =>
        match setCreate rest v c with
        | some c2 => (writeS k c2 fs).map .obj
        | none => none
      | none =>
        match setCreate rest v (.obj []) with
        | some c2 => some (.obj (fs ++ [(k, c2)]))
        | none => none
    | .null =>
      match setCreate rest v (.obj []) with
      | some c2 => some (.obj [(k, c2)])
      | none => none
    | _ => none
  | Seg.idx i :: rest, v, t =>
    match t with
    | .arr xs =>
      match xs.get? i with
      | none => none
      | some c =>
        match setCreate rest v c with
        | none => none
        | some c2 => (writeElemS i c2 xs).map .arr
    | _ => none

/-- A Discovered Reference (§3): the location whose node is
reference-only, and the reference path it holds. -/
structure SRef where
  loc : List Seg
  path : String
deriving Repr, DecidableEq

/-- The pointer part of a reference path as a key-selector path:
`pointerSegments` (§4.1), shared with `referencePathToItems` of
ref_utils.go. -/
def ptrSegs (p : String) : List Seg :=
  (referencePathToItems p).map Seg.key

/-- Path-Algebra walk from a document root (§4.1, §4.5). -/
def getPtr (t : SNode) (p : String) : Option SNode :=
  getLoc (ptrSegs p) t

/-- Recurse into record / keyed-map entries during discovery (§4.3). -/
def sdiscoverChildren (rec : List Seg → SNode → Option (List SRef)) (p : List Seg) :
    List (String × SNode) → Option (List SRef)
  | [] => some []
  | (k, v) :: rest => do
    let here ← rec (p ++ [Seg.key k]) v
    let more ← sdiscoverChildren rec p rest
    some (here ++ more)

/-- Recurse into sequence elements during discovery (§4.3). -/
def sdiscoverElems (rec : List Seg → SNode → Option (List SRef)) (p : List Seg) (i : Nat) :
    List SNode → Option (List SRef)
  | [] => some []
  | v :: rest => do
    let here ← rec (p ++ [Seg.idx i]) v
    let more ← sdiscoverElems rec p (i + 1) rest
    some (here ++ more)

/-- Modelled from the spec: Reference Discovery (§4.3) — the pre-order
walk collecting every reference-only node's location and path.  A
reference-only node is recorded without descent; scalars and zero values
contribute nothing; fuel bounds the depth (`none` = fuel ran out). -/
def sdiscover : Nat → List Seg → SNode → Option (List SRef)
  | 0, _, _ => none
  | fuel + 1, p, t =>
    match t with
    | .null => some []
    | .scalar _ => some []
    | .ref r => some [⟨p, r⟩]
    | .obj fs => sdiscoverChildren (sdiscover fuel) p fs
    | .arr xs => sdiscoverElems (sdiscover fuel) p 0 xs

/-- Modelled from the spec: the Ordering step (§4.5 step 2) — the stable
sort that puts every remote reference before every local one and keeps
discovery order inside each class. -/
def specSortRefs (refs : List SRef) : List SRef :=
  refs.filter (fun r => !(isLocalReference r.path)) ++
    refs.filter (fun r => isLocalReference r.path)

/-- The Resolution Configuration (§3): inline-local and keep-local. -/
structure SpecConfig where
  inlineLocal : Bool
  keepLocal : Bool
deriving Repr, DecidableEq

/-- Failure modes of the modelled engine (§7), collapsed to the families
the theorems distinguish; `sFuel` is the fuel marker of the embedding. -/
inductive SErr where
  | sFuel : SErr
  | sRead : SErr
  | sWalk : SErr
  | sWrite : SErr
deriving Repr, DecidableEq

/-- Lift a partial operation into the error monad. -/
def toExcept {α : Type} (e : SErr) : Option α → Except SErr α
  | some a => .ok a
  | none => .error e

/-- Modelled from the spec: Resolving(i) for one Discovered Reference
(§4.5 step 3).  Local: skip unless inline-local; otherwise obtain the
target by Path-Algebra walk on the current document, `set()` it at the
reference's location, and unless keep-local, `clear()` the original
target location.  Remote: obtain the owning document from the Document
Store (`load`, with inline-local forced true), walk to the target,
`init()`-then-`set()` it at the promoted local location
(`convertRemoteToLocalPath`), then rewrite the reference's own node to a
local reference to the promoted path. -/
def processRefSpec (load : SpecConfig → String → Except SErr SNode)
    (cfg : SpecConfig) (dir : String) (st : SNode) (r : SRef) :
    Except SErr SNode :=
  if isLocalReference r.path then
    if cfg.inlineLocal then
      match getPtr st r.path with
      | none => .error .sWalk
      | some target =>
        match setLoc r.loc target st with
        | none => .error .sWrite
        | some st1 =>
          if cfg.keepLocal then .ok st1
          else
            match setLoc (ptrSegs r.path) SNode.null st1 with
            | none => .error .sWrite
            | some st2 => .ok st2
    else .ok st
  else
    match load { inlineLocal := true, keepLocal := cfg.keepLocal }
      (Oas.goJoinPath dir (getDocumentPath r.path)) with
    | .error e => .error e
    | .ok rdoc =>
      match getPtr rdoc r.path with
      | none => .error .sWalk
      | some target =>
        match setCreate (ptrSegs (convertRemoteToLocalPath r.path)) target st with
        | none => .error .sWrite
        | some st1 =>
          match setLoc r.loc (SNode.ref (convertRemoteToLocalPath r.path)) st1 with
          | none => .error .sWrite
          | some st2 => .ok st2

/-- Modelled from the spec: the resolving loop over the ordered
references (§4.5 steps 3–4); the first failure aborts. -/
def processAllSpec (load : SpecConfig → String → Except SErr SNode)
    (cfg : SpecConfig) (dir : String) : List SRef → SNode → Except SErr SNode
  | [], st => .ok st
  | r :: rest, st =>
    match processRefSpec load cfg dir st r with
    | .error e => .error e
    | .ok st2 => processAllSpec load cfg dir rest st2

/-- Modelled from the spec: one document's resolution — Discovering,
Ordering, Resolving (§4.5). -/
def resolveSpecCore (load : SpecConfig → String → Except SErr SNode)
    (dfuel : Nat) (cfg : SpecConfig) (dir : String) (root : SNode) :
    Except SErr SNode :=
  match sdiscover dfuel [] root with
  | none => .error .sFuel
  | some refs => processAllSpec load cfg dir (specSortRefs refs) root

/-- The file system for the spec model. -/
abbrev sFS := List (String × SNode)

/-- Modelled from the spec: the Document Store's `load` (§4.4) — read and
deserialise the file, set the source directory to its containing
directory, and immediately run full resolution with the supplied
configuration.  The parsed-document cache affects only how often a file
is parsed, not which value `load` returns (the model is deterministic),
so it is not threaded here; parse counting is studied on the source
engine in the `Oas` namespace. -/
def loadDocSpec : Nat → sFS → SpecConfig → String → Except SErr SNode
  | 0, _, _, _ => .error .sFuel
  | fuel + 1, fs, cfg, path =>
    match Oas.lookupAssoc path fs with
    | none => .error .sRead
    | some parsed => resolveSpecCore (loadDocSpec fuel fs) fuel cfg (Oas.goDirPath path) parsed

/-- Modelled from the spec: resolve a caller-supplied root document
against file system `fs` with reference directory `dir`. -/
def resolveSpec (fuel : Nat) (fs : sFS) (cfg : SpecConfig) (dir : String)
    (root : SNode) : Except SErr SNode :=
  resolveSpecCore (loadDocSpec fuel fs) fuel cfg dir root

/-- The locations written while resolving one reference (used to phrase
non-interference hypotheses): a skipped local writes nothing; an inlined
local writes its own location and, without keep-local, the target
location; a remote writes the promoted location and its own location. -/
def writesOfSpec (cfg : SpecConfig) (r : SRef) : List (List Seg) :=
  if isLocalReference r.path then
    if cfg.inlineLocal then
      if cfg.keepLocal then [r.loc] else [r.loc, ptrSegs r.path]
    else []
  else [ptrSegs (convertRemoteToLocalPath r.path), r.loc]

/-- Two location paths do not interfere: neither is an initial segment of
the other, so a write at one leaves a read at the other unchanged. -/
def segIndep : List Seg → List Seg → Bool
  | [], _ => false
  | _, [] => false
  | a :: as_, b :: bs => if a = b then segIndep as_ bs else true

end Spec

namespace Oas

/-- Kinds outside `reflect.Slice` / `reflect.Ptr` / `reflect.Map`: a
string or another scalar — the kinds for which `replaceReference`'s
switch has no case at all. -/
def nonContainerKind : GoVal → Bool
  | .vstr _ => true
  | .vscalar _ => true
  | _ => false

/-- What Go's `sort.Slice` promises for the `sortReferences` comparator
(the `sort.Slice` call of `ResolveReferences`, document.go): the final
slice is a permutation of the input with no inversion.  `sort.Slice` is
documented as *not* guaranteed to be stable, so any `out` satisfying this
contract is a possible outcome of the ordering step. -/
def sortedByGo (out : List reference) : Prop :=
  out.Pairwise (fun a b => sortReferences b a = false)

/-- The `sort.Slice` contract relating input and output of the ordering
step. -/
def goSortSliceContract (refs out : List reference) : Prop :=
  out.Perm refs ∧ sortedByGo out

/-- The ordering the claim predicts: every remote reference first,
discovery order kept inside each class (the unique stable sort under
`sortReferences`). -/
def stableRemoteFirst (refs : List reference) : List reference :=
  refs.filter (fun r => !(isLocalReference r.path)) ++
    refs.filter (fun r => isLocalReference r.path)

end Oas

/-! ### Concrete documents used by the evaluation theorems -/

namespace Ex

/-- A local reference node: a `*Response` whose `$ref` points inside the
same document. -/
def localRefNode : GoVal := .vrec [("Ref", "$ref", .vstr "#/components/responses/X")]

/-- The local target `components.responses.X`, a `*Response`. -/
def responseX : GoVal := .vrec [("Description", "description", .vstr "a response")]

/-- A `*PathItem` whose only non-zero content is `get.responses.200`
holding the given `*Response` node.  The reference nodes of every run
below live in `Operation.Responses` (`map[string]*Response`, types.go),
and every value written over them is itself a `*Response` fetched from a
`components.responses` map, so each `replaceReference` write the runs
perform is between assignable Go types and is exactly the write the
`reflect`-based source performs. -/
def pathItemGet (resp : GoVal) : GoVal :=
  .vrec [("Get", "get", .vrec [("Responses", "responses", .vmap [("200", resp)])])]

/-- The navigation path of the `200` response slot under paths key `p`. -/
def respSlot (p : String) : List Oas.GoSel :=
  [.field "Paths", .key p, .field "Get", .field "Responses", .key "200"]

/-- A root document with one local reference at
`paths./p.get.responses.200` and its target at `components.responses.X`
(acyclic, local references only). -/
def rootLocal : GoVal :=
  .vrec [("Paths", "paths", .vmap [("/p", pathItemGet localRefNode)]),
    ("Components", "components",
      .vrec [("Responses", "responses", .vmap [("X", responseX)])])]

/-- The self-contained target inside `b.yaml`, a `*Response`. -/
def responseS : GoVal := .vrec [("Description", "description", .vstr "remote leaf")]

/-- `b.yaml`'s entry `R`: itself a local reference (a `*Response`) to `S`
in `b.yaml`. -/
def bNodeR : GoVal := .vrec [("Ref", "$ref", .vstr "#/components/responses/S")]

/-- The referenced file `b.yaml`: `components.responses.R` is a local
reference to `components.responses.S`. -/
def bDoc : GoVal :=
  .vrec [("Components", "components",
    .vrec [("Responses", "responses", .vmap [("R", bNodeR), ("S", responseS)])])]

/-- A root document whose only reference is remote, at
`paths./p.get.responses.200`, into `b.yaml`. -/
def rootRemote : GoVal :=
  .vrec [("Paths", "paths",
    .vmap [("/p", pathItemGet
      (.vrec [("Ref", "$ref", .vstr "b.yaml#/components/responses/R")]))])]

/-- The file system for the C6 run. -/
def fsB : Oas.goFS := [("b.yaml", bDoc)]

/-- The shared target inside `c.yaml`, a `*Response`. -/
def responseShared : GoVal := .vrec [("Description", "description", .vstr "shared")]

/-- The file `c.yaml`. -/
def cDoc : GoVal :=
  .vrec [("Components", "components",
    .vrec [("Responses", "responses", .vmap [("S", responseShared)])])]

/-- The file `a.yaml`: its entry `R` is a remote reference into `c.yaml`
(resolved value `responseShared`, a `*Response`, written back into
`a.yaml`'s own `components.responses` map). -/
def aDoc : GoVal :=
  .vrec [("Components", "components",
    .vrec [("Responses", "responses",
      .vmap [("R", .vrec [("Ref", "$ref", .vstr "c.yaml#/components/responses/S")])])])]

/-- A root document referencing `a.yaml` (at `paths./u.get.responses.200`)
and `c.yaml` (at `paths./v.get.responses.200`); `a.yaml` itself references
`c.yaml`, so one session touches `c.yaml` from two documents. -/
def rootSession : GoVal :=
  .vrec [("Paths", "paths",
    .vmap [("/u", pathItemGet
        (.vrec [("Ref", "$ref", .vstr "a.yaml#/components/responses/R")])),
      ("/v", pathItemGet
        (.vrec [("Ref", "$ref", .vstr "c.yaml#/components/responses/S")]))])]

/-- The file system for the C5 run. -/
def fsSession : Oas.goFS := [("a.yaml", aDoc), ("c.yaml", cDoc)]

end Ex

/-! ### Concrete documents for the spec-modelled orchestrator -/

namespace SpecEx

/-- The self-contained target value inside `b.yaml`. -/
def remoteLeaf : Spec.SNode := .scalar "remote leaf"

/-- The referenced file `b.yaml` with its target at
`components.responses.R`. -/
def bSpec : Spec.SNode :=
  .obj [("components", .obj [("responses", .obj [("R", remoteLeaf)])])]

/-- The file system for the spec-model runs. -/
def fsSpec : Spec.sFS := [("b.yaml", bSpec)]

/-- A root whose only reference is remote and whose location differs from
the promoted path. -/
def rootPromote : Spec.SNode :=
  .obj [("paths", .obj [("/p", .ref "b.yaml#/components/responses/R")])]

/-- A root whose remote reference sits exactly at its own promoted
location `components.responses.R`. -/
def selfPromote : Spec.SNode :=
  .obj [("components", .obj [("responses",
    .obj [("R", .ref "b.yaml#/components/responses/R")])])]

/-- A root with one local reference `a` → `#/b` and its scalar target. -/
def rootInline : Spec.SNode := .obj [("a", .ref "#/b"), ("b", .scalar "x")]

/-- A root whose local reference `a` points at its own location `#/a`. -/
def selfInline : Spec.SNode := .obj [("a", .ref "#/a")]

end SpecEx

/-! ### Lemmas about the path algebra -/

theorem goSplitCharsCore_cons_ne {sep c : Char} (h : c ≠ sep) (cs : List Char) :
    goSplitCharsCore sep (c :: cs) =
      (c :: (goSplitCharsCore sep cs).1, (goSplitCharsCore sep cs).2) := by
  simp [goSplitCharsCore, h]

theorem goSplitCharsCore_cons_sep {sep : Char} (cs : List Char) :
    goSplitCharsCore sep (sep :: cs) =
      ([], (goSplitCharsCore sep cs).1 :: (goSplitCharsCore sep cs).2) := by
  simp [goSplitCharsCore]

theorem goSplitCharsCore_append (sep : Char) (d r : List Char) (hd : sep ∉ d) :
    goSplitCharsCore sep (d ++ sep :: r) = (d, goSplitChars sep r) := by
  induction d with
  | nil => simp [goSplitCharsCore_cons_sep, goSplitChars]
  | cons c cs ih =>
    have hc : c ≠ sep := fun hc => hd (hc ▸ List.mem_cons_self c cs)
    have hcs : sep ∉ cs := fun hm => hd (List.mem_cons_of_mem c hm)
    rw [List.cons_append, goSplitCharsCore_cons_ne hc, ih hcs]

theorem goIndexOfChar_eq_zero_iff (sep : Char) (l : List Char) :
    goIndexOfChar sep l = 0 ↔ ∃ t, l = sep :: t := by
  cases l with
  | nil => simp [goIndexOfChar]
  | cons c cs =>
    by_cases hc : c = sep
    · subst hc; simp [goIndexOfChar]
    · simp only [goIndexOfChar, if_neg hc]
      constructor
      · intro h
        by_cases hr : goIndexOfChar sep cs = -1
        · simp [hr] at h
        · simp [hr] at h; omega
      · rintro ⟨t, ht⟩
        exact absurd (List.head_eq_of_cons_eq ht) hc

theorem first_occ_decomp {sep : Char} {l : List Char} (h : sep ∈ l) :
    ∃ d r, l = d ++ sep :: r ∧ sep ∉ d := by
  induction l with
  | nil => cases h
  | cons c cs ih =>
    by_cases hc : c = sep
    · exact ⟨[], cs, by rw [hc]; rfl, by simp⟩
    · have : sep ∈ cs := by
        cases List.mem_cons.mp h with
        | inl h2 => exact absurd h2.symm hc
        | inr h2 => exact h2
      obtain ⟨d, r, hdr, hnd⟩ := ih this
      exact ⟨c :: d, r, by rw [hdr]; rfl, by
        intro hm
        cases List.mem_cons.mp hm with
        | inl h2 => exact hc h2.symm
        | inr h2 => exact hnd h2⟩

theorem isLocalReference_iff (p : String) :
    isLocalReference p = true ↔ ∃ t, p.data = '#' :: t := by
  unfold isLocalReference
  rw [beq_iff_eq]
  exact goIndexOfChar_eq_zero_iff '#' p.data

theorem goIndexOfChar_ge_neg_one (sep : Char) (l : List Char) :
    -1 ≤ goIndexOfChar sep l := by
  induction l with
  | nil => simp [goIndexOfChar]
  | cons c cs ih =>
    by_cases hc : c = sep
    · simp [goIndexOfChar, hc]
    · simp only [goIndexOfChar, if_neg hc]
      by_cases h2 : goIndexOfChar sep cs = -1
      · simp [h2]
      · simp only [h2, if_neg]
        omega

theorem goIndexOfChar_ne_neg_one_iff (sep : Char) (l : List Char) :
    goIndexOfChar sep l ≠ -1 ↔ sep ∈ l := by
  induction l with
  | nil => simp [goIndexOfChar]
  | cons c cs ih =>
    by_cases hc : c = sep
    · subst hc; simp [goIndexOfChar]
    · simp only [goIndexOfChar, if_neg hc]
      by_cases hr : goIndexOfChar sep cs = -1
      · simp only [hr, if_pos rfl]
        constructor
        · intro hcon; exact absurd rfl hcon
        · intro hmem _
          cases List.mem_cons.mp hmem with
          | inl h2 => exact hc h2.symm
          | inr h2 => exact (ih.mpr h2) hr
      · simp only [if_neg hr]
        have hmem := ih.mp hr
        constructor
        · intro _; exact List.mem_cons_of_mem c hmem
        · intro _
          have hge : -1 ≤ goIndexOfChar sep cs := goIndexOfChar_ge_neg_one sep cs
          omega

theorem goIndexOfChar_pos_mem {sep : Char} {l : List Char}
    (h : 0 < goIndexOfChar sep l) : sep ∈ l := by
  refine (goIndexOfChar_ne_neg_one_iff sep l).mp ?_
  omega

theorem goIndexOfChar_pos_head {sep : Char} {l : List Char}
    (h : 0 < goIndexOfChar sep l) : ∀ t, l ≠ sep :: t := by
  intro t ht
  rw [ht] at h
  simp [goIndexOfChar] at h

theorem string_mk_data (l : List Char) : (String.mk l).data = l := rfl

theorem remote_decomp {p : String} (hpos : 0 < goIndexOfChar '#' p.data) :
    ∃ d r, p.data = d ++ '#' :: r ∧ '#' ∉ d ∧ d ≠ [] := by
  obtain ⟨d, r, hdr, hnd⟩ := first_occ_decomp (goIndexOfChar_pos_mem hpos)
  refine ⟨d, r, hdr, hnd, ?_⟩
  intro hnil
  subst hnil
  exact goIndexOfChar_pos_head hpos r (by simpa using hdr)

theorem splitReferenceByHash_remote {p : String} {d r : List Char}
    (hp : p.data = d ++ '#' :: r) (hd : '#' ∉ d) :
    splitReferenceByHash p = String.mk d :: (goSplitChars '#' r).map String.mk := by
  unfold splitReferenceByHash goSplitChars
  rw [hp, goSplitCharsCore_append _ _ _ hd]
  rfl

theorem isLocalReference_false_remote {p : String} {d r : List Char}
    (hp : p.data = d ++ '#' :: r) (hd : '#' ∉ d) (hne : d ≠ []) :
    isLocalReference p = false := by
  rw [← Bool.not_eq_true, isLocalReference_iff]
  rintro ⟨t, ht⟩
  rw [hp] at ht
  cases d with
  | nil => exact hne rfl
  | cons c cs =>
    have : c = '#' := List.head_eq_of_cons_eq (by simpa using ht)
    exact hd (this ▸ List.mem_cons_self c cs)

theorem getPathToReference_remote {p : String} {d r : List Char}
    (hp : p.data = d ++ '#' :: r) (hd : '#' ∉ d) (hne : d ≠ []) :
    getPathToReference p = String.mk (goSplitCharsCore '#' r).1 := by
  unfold getPathToReference
  rw [isLocalReference_false_remote hp hd hne]
  rw [splitReferenceByHash_remote hp hd]
  simp [goSplitChars, List.getD]

theorem convertRemote_data {p : String} {d r : List Char}
    (hp : p.data = d ++ '#' :: r) (hd : '#' ∉ d) (hne : d ≠ []) :
    (convertRemoteToLocalPath p).data = '#' :: (goSplitCharsCore '#' r).1 := by
  unfold convertRemoteToLocalPath
  rw [getPathToReference_remote hp hd hne]
  rfl

/-! ### Claims C8, C10, C9, C4 -/

/-- Claim C8: for every remote reference path `p` — a string containing
the `'#'` delimiter at a position greater than zero — `promote(p)`
(`convertRemoteToLocalPath`) strips the document part and keeps the
pointer part unchanged: the result is classified as local by
`isLocalReference`, and its pointer segments (`referencePathToItems`)
equal those of `p`. -/
theorem claim_C8_promote (p : String) (hpos : 0 < goIndexOfChar '#' p.data) :
    isLocalReference (convertRemoteToLocalPath p) = true ∧
    referencePathToItems (convertRemoteToLocalPath p) = referencePathToItems p := by
  obtain ⟨d, r, hp, hd, hne⟩ := remote_decomp hpos
  have hcv := convertRemote_data hp hd hne
  have hloc : isLocalReference (convertRemoteToLocalPath p) = true :=
    (isLocalReference_iff _).mpr ⟨_, hcv⟩
  refine ⟨hloc, ?_⟩
  unfold referencePathToItems
  have h1 : getPathToReference (convertRemoteToLocalPath p) = convertRemoteToLocalPath p := by
    unfold getPathToReference
    rw [hloc]
    simp
  rw [h1, getPathToReference_remote hp hd hne, string_mk_data]
  have hcv2 : (convertRemoteToLocalPath p).data = '#' :: (goSplitCharsCore '#' r).1 := hcv
  rw [hcv2]
  have hns : ('#' : Char) ≠ '/' := by decide
  unfold goSplitChars
  rw [goSplitCharsCore_cons_ne hns]
  simp

theorem claim_C8_promote_witness :
    0 < goIndexOfChar '#' ("doc.yaml#/components/schemas/Pet" : String).data ∧
    (isLocalReference (convertRemoteToLocalPath "doc.yaml#/components/schemas/Pet") = true ∧
     referencePathToItems (convertRemoteToLocalPath "doc.yaml#/components/schemas/Pet") =
       referencePathToItems "doc.yaml#/components/schemas/Pet") :=
  ⟨by decide, claim_C8_promote _ (by decide)⟩

theorem append_hash_data (d : String) : (d ++ "#").data = d.data ++ '#' :: [] := by
  simp [String.data_append]

/-- Claim C10: for every reference path whose pointer part after the `'#'`
delimiter is empty (`d ++ "#"` with no `'#'` in `d`, e.g. `file.yaml#`),
`referencePathToItems` produces the empty segment list, and
`getItemByPath` on any document returns the document's entire root
object. -/
theorem claim_C10_empty_pointer (d : String) (hd : '#' ∉ d.data) (root : GoVal) :
    referencePathToItems (d ++ "#") = [] ∧
    Oas.getItemByPath root (d ++ "#") = .ok root := by
  have hdata := append_hash_data d
  have hitems : referencePathToItems (d ++ "#") = [] := by
    by_cases hnil : d.data = []
    · have hloc : isLocalReference (d ++ "#") = true := by
        rw [isLocalReference_iff]
        exact ⟨[], by rw [hdata, hnil]; rfl⟩
      unfold referencePathToItems getPathToReference
      rw [hloc]
      simp only [if_pos]
      rw [hdata, hnil]
      simp [goSplitChars, goSplitCharsCore_cons_ne (by decide : ('#' : Char) ≠ '/'),
        goSplitCharsCore]
    · rw [referencePathToItems,
        getPathToReference_remote hdata hd hnil, string_mk_data]
      simp [goSplitCharsCore, goSplitChars]
  refine ⟨hitems, ?_⟩
  unfold Oas.getItemByPath
  rw [hitems]
  rfl

theorem claim_C10_empty_pointer_witness :
    ('#' ∉ ("file.yaml" : String).data) ∧
    (referencePathToItems ("file.yaml" ++ "#") = [] ∧
     Oas.getItemByPath (GoVal.vrec [("Paths", "paths", GoVal.vmap [])]) ("file.yaml" ++ "#") =
       .ok (GoVal.vrec [("Paths", "paths", GoVal.vmap [])])) :=
  ⟨by decide, claim_C10_empty_pointer "file.yaml" (by decide) _⟩

/-- Claim C9: when the parent addressed by a reference-replacement call is
not a sequence, a pointer-to-record, or a keyed map, `replaceReference`
returns success (nil error) and performs no mutation at all. -/
theorem claim_C9_silent_replace (root parent : GoVal) (p : List Oas.GoSel)
    (obj : Oas.oasObject) (v : GoVal)
    (hpp : obj.parentPath = some p)
    (hnav : Oas.navGo p root = some parent)
    (hkind : Oas.nonContainerKind parent = true) :
    Oas.replaceReference root obj v = .ok root := by
  unfold Oas.replaceReference
  rw [hpp]
  simp only [hnav]
  cases parent <;> simp_all [Oas.nonContainerKind]

theorem claim_C9_silent_replace_witness :
    ((⟨some [Oas.GoSel.field "Version"], "X", 0⟩ : Oas.oasObject).parentPath =
      some [Oas.GoSel.field "Version"]) ∧
    (Oas.navGo [Oas.GoSel.field "Version"]
      (GoVal.vrec [("Version", "openapi", GoVal.vstr "3.0.0")]) = some (GoVal.vstr "3.0.0")) ∧
    (Oas.nonContainerKind (GoVal.vstr "3.0.0") = true) ∧
    (Oas.replaceReference (GoVal.vrec [("Version", "openapi", GoVal.vstr "3.0.0")])
      ⟨some [Oas.GoSel.field "Version"], "X", 0⟩ (GoVal.vstr "y") =
      .ok (GoVal.vrec [("Version", "openapi", GoVal.vstr "3.0.0")])) :=
  ⟨rfl, rfl, rfl, claim_C9_silent_replace _ _ _ _ _ rfl rfl rfl⟩

/-- Claim C4 counterexample: with three discovered references — two local
(`#/a`, `#/b` in discovery order) and one remote — the output
`[remote, #/b, #/a]` satisfies everything `sort.Slice` guarantees
(permutation, no inversion under `sortReferences`), yet differs from the
stable remote-first order `[remote, #/a, #/b]` the claim asserts: the
relative order of the two local references is not discovery order. -/
theorem claim_C4_counterexample :
    Oas.goSortSliceContract
      [⟨⟨some [], "a", 0⟩, "#/a"⟩, ⟨⟨some [], "b", 0⟩, "#/b"⟩, ⟨⟨some [], "c", 0⟩, "r.yaml#/c"⟩]
      [⟨⟨some [], "c", 0⟩, "r.yaml#/c"⟩, ⟨⟨some [], "b", 0⟩, "#/b"⟩, ⟨⟨some [], "a", 0⟩, "#/a"⟩] ∧
    [(⟨⟨some [], "c", 0⟩, "r.yaml#/c"⟩ : Oas.reference), ⟨⟨some [], "b", 0⟩, "#/b"⟩,
        ⟨⟨some [], "a", 0⟩, "#/a"⟩] ≠
      Oas.stableRemoteFirst
        [⟨⟨some [], "a", 0⟩, "#/a"⟩, ⟨⟨some [], "b", 0⟩, "#/b"⟩,
          ⟨⟨some [], "c", 0⟩, "r.yaml#/c"⟩] := by
  refine ⟨⟨by decide, ?_⟩, by decide⟩
  unfold Oas.sortedByGo
  decide

theorem sortedByGo_split (out : List Oas.reference) (h : Oas.sortedByGo out) :
    out = out.filter (fun r => !(isLocalReference r.path)) ++
      out.filter (fun r => isLocalReference r.path) := by
  induction out with
  | nil => rfl
  | cons x t ih =>
    unfold Oas.sortedByGo at h ih
    rw [List.pairwise_cons] at h
    by_cases hx : isLocalReference x.path
    · have hall : ∀ z ∈ t, isLocalReference z.path = true := by
        intro z hz
        have := h.1 z hz
        unfold Oas.sortReferences at this
        simp [hx] at this
        exact this
      have h1 : t.filter (fun r => !(isLocalReference r.path)) = [] := by
        rw [List.filter_eq_nil_iff]
        intro a ha
        simp [hall a ha]
      have h2 : t.filter (fun r => isLocalReference r.path) = t :=
        List.filter_eq_self.mpr (fun a ha => by simp [hall a ha])
      simp [List.filter_cons, hx, h1, h2]
    · have ih2 := ih h.2
      have e1 : (x :: t).filter (fun r => !(isLocalReference r.path)) =
          x :: t.filter (fun r => !(isLocalReference r.path)) := by
        simp [List.filter_cons, hx]
      have e2 : (x :: t).filter (fun r => isLocalReference r.path) =
          t.filter (fun r => isLocalReference r.path) := by
        simp [List.filter_cons, hx]
      rw [e1, e2, List.cons_append, ← ih2]

/-- Claim C4 amended: every outcome permitted by the `sort.Slice` contract
splits as all remote references followed by all local ones, each class a
permutation of the corresponding class of the input — but the order
*inside* each class is not guaranteed to be discovery order, because
`sort.Slice` (unlike `sort.SliceStable`) is not stable. -/
theorem claim_C4_amended (refs out : List Oas.reference)
    (h : Oas.goSortSliceContract refs out) :
    out = out.filter (fun r => !(isLocalReference r.path)) ++
      out.filter (fun r => isLocalReference r.path) ∧
    (out.filter (fun r => !(isLocalReference r.path))).Perm
      (refs.filter (fun r => !(isLocalReference r.path))) ∧
    (out.filter (fun r => isLocalReference r.path)).Perm
      (refs.filter (fun r => isLocalReference r.path)) :=
  ⟨sortedByGo_split out h.2, h.1.filter _, h.1.filter _⟩

theorem claim_C4_amended_witness :
    Oas.goSortSliceContract
      [⟨⟨some [], "x", 0⟩, "#/a"⟩, ⟨⟨some [], "y", 0⟩, "r.yaml#/c"⟩]
      [⟨⟨some [], "y", 0⟩, "r.yaml#/c"⟩, ⟨⟨some [], "x", 0⟩, "#/a"⟩] ∧
    (([⟨⟨some [], "y", 0⟩, "r.yaml#/c"⟩, ⟨⟨some [], "x", 0⟩, "#/a"⟩] : List Oas.reference) =
      List.filter (fun r => !(isLocalReference r.path))
        ([⟨⟨some [], "y", 0⟩, "r.yaml#/c"⟩, ⟨⟨some [], "x", 0⟩, "#/a"⟩] : List Oas.reference) ++
      List.filter (fun r => isLocalReference r.path)
        ([⟨⟨some [], "y", 0⟩, "r.yaml#/c"⟩, ⟨⟨some [], "x", 0⟩, "#/a"⟩] : List Oas.reference) ∧
    (List.filter (fun r => !(isLocalReference r.path))
        ([⟨⟨some [], "y", 0⟩, "r.yaml#/c"⟩, ⟨⟨some [], "x", 0⟩, "#/a"⟩] : List Oas.reference)).Perm
      (List.filter (fun r => !(isLocalReference r.path))
        ([⟨⟨some [], "x", 0⟩, "#/a"⟩, ⟨⟨some [], "y", 0⟩, "r.yaml#/c"⟩] : List Oas.reference)) ∧
    (List.filter (fun r => isLocalReference r.path)
        ([⟨⟨some [], "y", 0⟩, "r.yaml#/c"⟩, ⟨⟨some [], "x", 0⟩, "#/a"⟩] : List Oas.reference)).Perm
      (List.filter (fun r => isLocalReference r.path)
        ([⟨⟨some [], "x", 0⟩, "#/a"⟩, ⟨⟨some [], "y", 0⟩, "r.yaml#/c"⟩] : List Oas.reference))) :=
  ⟨⟨by decide, by unfold Oas.sortedByGo; decide⟩,
    claim_C4_amended _ _ ⟨by decide, by unfold Oas.sortedByGo; decide⟩⟩

/-! ### Claims C2, C7, C6, C5 against the engine of document.go -/

/-- Claim C2: evaluation of `ResolveReferences` at the failing input.  The
document holds one local reference (the `*Response` at
`paths./p.get.responses.200` pointing at `components.responses.X`) and
the configuration has `InlineLocalRefs` false; the flag's own description
promises the local reference is then left in place, but
`ResolveReferences`'s condition
`if doc.Cfg.InlineLocalRefs && isLocal { continue }` skips local
references only when the flag is *true*, so here the reference is
assigned: the pointer disappears from the output and the node is replaced
by the target's content (a `*Response` written into the
`map[string]*Response` that held it — an assignable Go write). -/
theorem claim_C2_bug :
    Oas.refStringAt Ex.rootLocal (Ex.respSlot "/p") =
      some (some "#/components/responses/X") ∧
    (Oas.ResolveReferences 9 ⟨false⟩ [] "." Ex.rootLocal).map
      (fun out => Oas.refStringAt out.root (Ex.respSlot "/p")) =
      .ok (some none) ∧
    (Oas.ResolveReferences 9 ⟨false⟩ [] "." Ex.rootLocal).map
      (fun out => Oas.navGo (Ex.respSlot "/p") out.root) =
      .ok (some Ex.responseX) :=
  ⟨rfl, rfl, rfl⟩

/-- Claim C7: evaluation at the failing input.  An acyclic document with
only local references, resolved with inline-local false, is *not* left
unchanged: the reference node at `paths./p.get.responses.200` is replaced
by its target's content — a `*Response` written into the
`map[string]*Response` that held it, the same assignable write the
source performs (same root cause as C2, the inverted skip condition) — so
resolution is not a no-op on tree shape. -/
theorem claim_C7_bug :
    (Oas.ResolveReferences 9 ⟨false⟩ [] "." Ex.rootLocal).map
      (fun out => Oas.navGo (Ex.respSlot "/p") out.root) =
      .ok (some Ex.responseX) ∧
    Oas.navGo (Ex.respSlot "/p") Ex.rootLocal =
      some Ex.localRefNode ∧
    Ex.responseX ≠ Ex.localRefNode :=
  ⟨rfl, rfl, fun h => absurd (congrArg Oas.nodeRefString h) (by decide)⟩

/-- Claim C6: evaluation at the failing input.  `getReferencedDocument`
passes the caller's configuration unchanged to `ParseDocument`, so with
`InlineLocalRefs` true the referenced `b.yaml` keeps its own local
reference unresolved; the content delivered for the remote reference at
`paths./p.get.responses.200` is that bare local-pointer `*Response`
(written into the `map[string]*Response` that held the reference — an
assignable Go write).  The claim promises the delivered content has its
nested local references already inlined; instead the output holds the
unresolved pointer `#/components/responses/S` while the output document
carries no components content at all (its `Components` field stays nil),
so the leaked pointer has no target in the combined document. -/
theorem claim_C6_bug :
    (Oas.ResolveReferences 9 ⟨true⟩ Ex.fsB "." Ex.rootRemote).map
      (fun out => Oas.refStringAt out.root (Ex.respSlot "/p")) =
      .ok (some (some "#/components/responses/S")) ∧
    (Oas.ResolveReferences 9 ⟨true⟩ Ex.fsB "." Ex.rootRemote).map
      (fun out => Oas.navGo [Oas.GoSel.field "Components"] out.root) =
      .ok none :=
  ⟨rfl, rfl⟩

/-- Claim C5 counterexample: one session in which `c.yaml` is parsed
twice.  The root references `a.yaml` and `c.yaml` from
`get.responses.200` slots (each resolved value a `*Response` written into
a `map[string]*Response` — assignable Go writes throughout, so the run
completes as modelled); `a.yaml` references `c.yaml`.  Resolving `a.yaml`
parses `c.yaml` into `a.yaml`'s own (per-document) cache; the root's
later reference to `c.yaml` misses the root's cache and parses the file
again — the parse log names `c.yaml` twice, refuting
at-most-once-per-session.  (Go iterates the `paths` map in unspecified
order, modelled here as the entry order `/u`, `/v`; under the other order
the log is `[c.yaml, a.yaml, c.yaml]` — `c.yaml` is parsed twice either
way, once by `a.yaml` and once by the root.) -/
theorem claim_C5_counterexample :
    (Oas.ResolveReferences 9 ⟨false⟩ Ex.fsSession "." Ex.rootSession).map
      (fun out => out.plog) = .ok ["a.yaml", "c.yaml", "c.yaml"] ∧
    ¬ (List.count "c.yaml" ["a.yaml", "c.yaml", "c.yaml"] ≤ 1) :=
  ⟨rfl, by decide⟩

/-! ### Claim C5, amended: the per-document cache parses each file at most once -/

theorem lookupAssoc_cons {α : Type} (k0 : String) (v : α) (rest : List (String × α)) (q : String) :
    Oas.lookupAssoc q ((k0, v) :: rest) =
      if k0 == q then some v else Oas.lookupAssoc q rest := rfl

theorem lookupAssoc_append_none {α : Type} {q : String} {c d : List (String × α)}
    (h : Oas.lookupAssoc q (c ++ d) = none) : Oas.lookupAssoc q c = none := by
  induction c with
  | nil => rfl
  | cons x xs ih =>
    obtain ⟨k0, v⟩ := x
    rw [List.cons_append, lookupAssoc_cons] at h
    rw [lookupAssoc_cons]
    by_cases hx : k0 == q
    · simp [hx] at h
    · simp only [hx, Bool.false_eq_true, if_neg, if_false] at h ⊢
      exact ih h

theorem lookupAssoc_append_last {α : Type} {fp : String} {c : List (String × α)} (v : α)
    (h : Oas.lookupAssoc fp c = none) :
    Oas.lookupAssoc fp (c ++ [(fp, v)]) = some v := by
  induction c with
  | nil => simp [Oas.lookupAssoc]
  | cons x xs ih =>
    obtain ⟨k0, w⟩ := x
    rw [lookupAssoc_cons] at h
    rw [List.cons_append, lookupAssoc_cons]
    by_cases hx : k0 == fp
    · simp [hx] at h
    · simp only [hx, Bool.false_eq_true, if_neg, if_false] at h ⊢
      exact ih h

theorem assignReference_cases (pd : String → Except Oas.GoErr (GoVal × List String))
    (refDir : String) (root : GoVal) (cache : List (String × GoVal))
    (ref : Oas.reference) (step : GoVal × List (String × GoVal) × List String × List String)
    (h : Oas.assignReference pd refDir root cache ref = .ok step) :
    (step.2.2.2 = [] ∧ step.2.1 = cache) ∨
    ∃ fp v, step.2.2.2 = [fp] ∧ Oas.lookupAssoc fp cache = none ∧
      step.2.1 = cache ++ [(fp, v)] := by
  unfold Oas.assignReference at h
  split at h
  · split at h
    · cases h
    · split at h
      · cases h
      · cases h
        exact Or.inl ⟨rfl, rfl⟩
  · split at h
    · split at h
      · cases h
      · split at h
        · cases h
        · cases h
          exact Or.inl ⟨rfl, rfl⟩
    · rename_i hnone
      split at h
      · cases h
      · split at h
        · cases h
        · split at h
          · cases h
          · cases h
            exact Or.inr ⟨_, _, rfl, hnone, rfl⟩

/-- Claim C5 amended: within one document's resolving loop, each physical
file is parsed at most once by that document — the list of files the
loop's cache-miss branch parses directly has no duplicates, and every one
of them was absent from the document's `ReferencedDocuments` cache when
the loop started (a second reference to the same resolved file path from
the same document is served from the cache).  Session-wide at-most-once
does not hold: see `claim_C5_counterexample`. -/
theorem claim_C5_amended (pd : String → Except Oas.GoErr (GoVal × List String))
    (cfg : Oas.Config) (refDir : String) (refs : List Oas.reference) :
    ∀ (root : GoVal) (cache : List (String × GoVal)) (out : Oas.ResolveOut),
    Oas.processRefs pd cfg refDir refs root cache = .ok out →
    out.direct.Nodup ∧ ∀ q ∈ out.direct, Oas.lookupAssoc q cache = none := by
  induction refs with
  | nil =>
    intro root cache out h
    cases h
    exact ⟨List.nodup_nil, by intro q hq; cases hq⟩
  | cons ref rest ih =>
    intro root cache out h
    unfold Oas.processRefs at h
    split at h
    · exact ih root cache out h
    · split at h
      · cases h
      · rename_i step hstep
        split at h
        · cases h
        · rename_i out2 hrest
          cases h
          have hih := ih step.1 step.2.1 out2 hrest
          rcases assignReference_cases pd refDir root cache ref step hstep with
            ⟨hd1, hc1⟩ | ⟨fp, v, hd1, hmiss, hc1⟩
          · rw [hd1]
            simp only [List.nil_append]
            rw [hc1] at hih
            exact hih
          · rw [hd1]
            rw [hc1] at hih
            constructor
            · refine List.Nodup.cons ?_ hih.1
              intro hfp
              have := hih.2 fp hfp
              rw [lookupAssoc_append_last v hmiss] at this
              cases this
            · intro q hq
              rcases List.mem_cons.mp hq with hq1 | hq2
              · rw [hq1]; exact hmiss
              · exact lookupAssoc_append_none (hih.2 q hq2)

theorem claim_C5_amended_witness :
    Oas.processRefs (fun p => .ok (Ex.cDoc, [p])) ⟨false⟩ "."
        [⟨⟨some [Oas.GoSel.field "Paths", Oas.GoSel.key "/u", Oas.GoSel.field "Get",
            Oas.GoSel.field "Responses"], "200", 0⟩, "c.yaml#/components/responses/S"⟩]
        (GoVal.vrec [("Paths", "paths", GoVal.vmap [("/u", Ex.pathItemGet
          (GoVal.vrec [("Ref", "$ref", GoVal.vstr "c.yaml#/components/responses/S")]))])])
        [] =
      .ok ⟨GoVal.vrec [("Paths", "paths",
          GoVal.vmap [("/u", Ex.pathItemGet Ex.responseShared)])],
        [("c.yaml", Ex.cDoc)], ["c.yaml"], ["c.yaml"]⟩ ∧
    (["c.yaml"] : List String).Nodup ∧
    (∀ q ∈ (["c.yaml"] : List String), Oas.lookupAssoc q ([] : List (String × GoVal)) = none) :=
  ⟨rfl, claim_C5_amended (fun p => .ok (Ex.cDoc, [p])) ⟨false⟩ "."
    [⟨⟨some [Oas.GoSel.field "Paths", Oas.GoSel.key "/u", Oas.GoSel.field "Get",
        Oas.GoSel.field "Responses"], "200", 0⟩, "c.yaml#/components/responses/S"⟩]
    (GoVal.vrec [("Paths", "paths", GoVal.vmap [("/u", Ex.pathItemGet
      (GoVal.vrec [("Ref", "$ref", GoVal.vstr "c.yaml#/components/responses/S")]))])])
    []
    ⟨GoVal.vrec [("Paths", "paths",
        GoVal.vmap [("/u", Ex.pathItemGet Ex.responseShared)])],
      [("c.yaml", Ex.cDoc)], ["c.yaml"], ["c.yaml"]⟩ rfl⟩

/-! ### Lemmas about the spec-modelled orchestrator, and claims C1 and C3 -/

namespace Spec

theorem lookupS_cons (k0 : String) (v : SNode) (rest : List (String × SNode)) (q : String) :
    lookupS q ((k0, v) :: rest) = if k0 == q then some v else lookupS q rest := rfl

theorem writeS_lookup_self {k : String} {c : SNode} :
    ∀ {fs fs' : List (String × SNode)}, writeS k c fs = some fs' →
    lookupS k fs' = some c := by
  intro fs
  induction fs with
  | nil => intro fs' h; cases h
  | cons x xs ih =>
    intro fs' h
    obtain ⟨k0, w⟩ := x
    unfold writeS at h
    by_cases hk : k0 == k
    · simp only [hk, if_pos] at h
      cases h
      rw [lookupS_cons, if_pos hk]
    · simp only [hk, Bool.false_eq_true, if_neg, if_false] at h
      cases hw : writeS k c xs with
      | none => rw [hw] at h; cases h
      | some rest2 =>
        rw [hw] at h
        cases h
        rw [lookupS_cons, if_neg (by simp_all), ih hw]

theorem writeS_lookup_other {k : String} {c : SNode} :
    ∀ {fs fs' : List (String × SNode)}, writeS k c fs = some fs' →
    ∀ q, q ≠ k → lookupS q fs' = lookupS q fs := by
  intro fs
  induction fs with
  | nil => intro fs' h; cases h
  | cons x xs ih =>
    intro fs' h q hq
    obtain ⟨k0, w⟩ := x
    unfold writeS at h
    by_cases hk : k0 == k
    · simp only [hk, if_pos] at h
      cases h
      have hk0 : k0 = k := by simpa using hk
      rw [lookupS_cons, lookupS_cons, if_neg (by simp [hk0, Ne.symm hq]),
        if_neg (by simp [hk0, Ne.symm hq])]
    · simp only [hk, Bool.false_eq_true, if_neg, if_false] at h
      cases hw : writeS k c xs with
      | none => rw [hw] at h; cases h
      | some rest2 =>
        rw [hw] at h
        cases h
        rw [lookupS_cons, lookupS_cons, ih hw q hq]

theorem writeElemS_zero (c x : SNode) (rest : List SNode) :
    writeElemS 0 c (x :: rest) = some (c :: rest) := rfl

theorem writeElemS_succ (j : Nat) (c x : SNode) (rest : List SNode) :
    writeElemS (j + 1) c (x :: rest) =
      match writeElemS j c rest with
      | some rest2 => some (x :: rest2)
      | none => none := rfl

theorem writeElemS_get_self {c : SNode} :
    ∀ {i : Nat} {xs xs' : List SNode}, writeElemS i c xs = some xs' →
    xs'.get? i = some c := by
  intro i
  induction i with
  | zero =>
    intro xs xs' h
    cases xs with
    | nil => cases h
    | cons x rest => cases h; rfl
  | succ j ih =>
    intro xs xs' h
    cases xs with
    | nil => cases h
    | cons x rest =>
      rw [writeElemS_succ] at h
      cases hw : writeElemS j c rest with
      | none => rw [hw] at h; cases h
      | some rest2 =>
        rw [hw] at h
        cases h
        exact ih hw

theorem writeElemS_get_other {c : SNode} :
    ∀ {i : Nat} {xs xs' : List SNode}, writeElemS i c xs = some xs' →
    ∀ j, j ≠ i → xs'.get? j = xs.get? j := by
  intro i
  induction i with
  | zero =>
    intro xs xs' h j hj
    cases xs with
    | nil => cases h
    | cons x rest =>
      cases h
      cases j with
      | zero => exact absurd rfl hj
      | succ j2 => rfl
  | succ m ih =>
    intro xs xs' h j hj
    cases xs with
    | nil => cases h
    | cons x rest =>
      rw [writeElemS_succ] at h
      cases hw : writeElemS m c rest with
      | none => rw [hw] at h; cases h
      | some rest2 =>
        rw [hw] at h
        cases h
        cases j with
        | zero => rfl
        | succ j2 =>
          have : j2 ≠ m := fun hh => hj (by rw [hh])
          exact ih hw j2 this

end Spec

namespace Spec

theorem getChildS_setChildS_self {t : SNode} {s : Seg} {c t' : SNode}
    (h : setChildS t s c = some t') : getChildS t' s = some c := by
  cases t <;> cases s <;> simp [setChildS] at h
  case obj.key fs k =>
    obtain ⟨fs', hw, ht'⟩ := h
    subst ht'
    exact writeS_lookup_self hw
  case arr.idx xs i =>
    obtain ⟨xs', hw, ht'⟩ := h
    subst ht'
    exact writeElemS_get_self hw

theorem getChildS_setChildS_other {t : SNode} {s : Seg} {c t' : SNode}
    (h : setChildS t s c = some t') {s' : Seg} (hne : s' ≠ s) :
    getChildS t' s' = getChildS t s' := by
  cases t <;> cases s <;> simp [setChildS] at h
  case obj.key fs k =>
    obtain ⟨fs', hw, ht'⟩ := h
    subst ht'
    cases s' with
    | key k' =>
      have : k' ≠ k := fun hk => hne (by rw [hk])
      exact writeS_lookup_other hw k' this
    | idx i => rfl
  case arr.idx xs i =>
    obtain ⟨xs', hw, ht'⟩ := h
    subst ht'
    cases s' with
    | key k' => rfl
    | idx j =>
      have : j ≠ i := fun hk => hne (by rw [hk])
      exact writeElemS_get_other hw j this

theorem segIndep_cons (a b : Seg) (as2 bs : List Seg) :
    segIndep (a :: as2) (b :: bs) = if a = b then segIndep as2 bs else true := rfl

theorem segIndep_nil_left (q : List Seg) : segIndep [] q = false := by
  cases q <;> rfl

theorem segIndep_nil_right (p : List Seg) : segIndep p [] = false := by
  cases p <;> rfl

theorem getLoc_setLoc_self :
    ∀ {p : List Seg} {v t t' : SNode}, setLoc p v t = some t' →
    getLoc p t' = some v := by
  intro p
  induction p with
  | nil =>
    intro v t t' h
    cases h
    rfl
  | cons s rest ih =>
    intro v t t' h
    unfold setLoc at h
    split at h
    · cases h
    · rename_i c hc
      split at h
      · cases h
      · rename_i c2 hs
        unfold getLoc
        rw [getChildS_setChildS_self h, Option.some_bind]
        exact ih hs

theorem getLoc_setLoc_frame :
    ∀ {p : List Seg} {v t t' : SNode}, setLoc p v t = some t' →
    ∀ {q : List Seg}, segIndep p q = true → getLoc q t' = getLoc q t := by
  intro p
  induction p with
  | nil =>
    intro v t t' h q hq
    rw [segIndep_nil_left] at hq
    cases hq
  | cons s rest ih =>
    intro v t t' h q hq
    unfold setLoc at h
    split at h
    · cases h
    · rename_i c hc
      split at h
      · cases h
      · rename_i c2 hs
        cases q with
        | nil => rw [segIndep_nil_right] at hq; cases hq
        | cons s' q' =>
          unfold getLoc
          rw [segIndep_cons] at hq
          by_cases hss : s = s'
          · subst hss
            rw [getChildS_setChildS_self h, hc, Option.some_bind, Option.some_bind]
            rw [if_pos rfl] at hq
            exact ih hs hq
          · rw [getChildS_setChildS_other h (fun hh => hss hh.symm)]

theorem lookupS_append_last {k : String} {fs : List (String × SNode)} (c : SNode)
    (h : lookupS k fs = none) : lookupS k (fs ++ [(k, c)]) = some c := by
  induction fs with
  | nil => simp [lookupS]
  | cons x xs ih =>
    obtain ⟨k0, w⟩ := x
    rw [lookupS_cons] at h
    rw [List.cons_append, lookupS_cons]
    by_cases hk : k0 == k
    · simp [hk] at h
    · simp only [hk, Bool.false_eq_true, if_neg, if_false] at h ⊢
      exact ih h

theorem lookupS_append_other {k k' : String} {fs : List (String × SNode)} (c : SNode)
    (hne : k' ≠ k) : lookupS k' (fs ++ [(k, c)]) = lookupS k' fs := by
  induction fs with
  | nil => simp [lookupS, beq_iff_eq, Ne.symm hne]
  | cons x xs ih =>
    obtain ⟨k0, w⟩ := x
    rw [List.cons_append, lookupS_cons, lookupS_cons]
    by_cases hk : k0 == k'
    · simp [hk]
    · simp only [hk, Bool.false_eq_true, if_neg, if_false]
      exact ih

theorem getLoc_cons_obj_nil (s : Seg) (q' : List Seg) :
    getLoc (s :: q') (SNode.obj []) = none := by
  cases s <;> rfl

theorem getLoc_cons_null (s : Seg) (q' : List Seg) :
    getLoc (s :: q') SNode.null = none := by
  cases s <;> rfl

theorem getLoc_ne_nil_obj_nil {q : List Seg} (h : q ≠ []) :
    getLoc q (SNode.obj []) = none := by
  cases q with
  | nil => exact absurd rfl h
  | cons s q' => exact getLoc_cons_obj_nil s q'

theorem segIndep_ne_nil {p q : List Seg} (h : segIndep p q = true) : p ≠ [] ∧ q ≠ [] := by
  constructor
  · intro hp
    rw [hp, segIndep_nil_left] at h
    cases h
  · intro hq2
    rw [hq2, segIndep_nil_right] at h
    cases h

theorem setCreate_key_obj (k : String) (rest : List Seg) (v : SNode)
    (fs : List (String × SNode)) :
    setCreate (Seg.key k :: rest) v (SNode.obj fs) =
      match lookupS k fs with
      | some c =>
        match setCreate rest v c with
        | some c2 => (writeS k c2 fs).map SNode.obj
        | none => none
      | none =>
        match setCreate rest v (SNode.obj []) with
        | some c2 => some (SNode.obj (fs ++ [(k, c2)]))
        | none => none := rfl

theorem setCreate_key_null (k : String) (rest : List Seg) (v : SNode) :
    setCreate (Seg.key k :: rest) v SNode.null =
      match setCreate rest v (SNode.obj []) with
      | some c2 => some (SNode.obj [(k, c2)])
      | none => none := rfl

theorem setCreate_idx_arr (i : Nat) (rest : List Seg) (v : SNode) (xs : List SNode) :
    setCreate (Seg.idx i :: rest) v (SNode.arr xs) =
      match xs.get? i with
      | none => none
      | some c =>
        match setCreate rest v c with
        | none => none
        | some c2 => (writeElemS i c2 xs).map SNode.arr := rfl

theorem setCreate_key_kinds {k : String} {rest : List Seg} {v t t' : SNode}
    (h : setCreate (Seg.key k :: rest) v t = some t') :
    (∃ fs, t = SNode.obj fs) ∨ t = SNode.null := by
  cases t with
  | obj fs => exact Or.inl ⟨fs, rfl⟩
  | null => exact Or.inr rfl
  | scalar s => cases h
  | ref r => cases h
  | arr xs => cases h

theorem setCreate_idx_kinds {i : Nat} {rest : List Seg} {v t t' : SNode}
    (h : setCreate (Seg.idx i :: rest) v t = some t') :
    ∃ xs, t = SNode.arr xs := by
  cases t with
  | arr xs => exact ⟨xs, rfl⟩
  | null => cases h
  | scalar s => cases h
  | ref r => cases h
  | obj fs => cases h

theorem getLoc_setCreate_self :
    ∀ {p : List Seg} {v t t' : SNode}, setCreate p v t = some t' →
    getLoc p t' = some v := by
  intro p
  induction p with
  | nil =>
    intro v t t' h
    cases h
    rfl
  | cons s rest ih =>
    intro v t t' h
    cases s with
    | key k =>
      rcases setCreate_key_kinds h with ⟨fs, ht⟩ | ht
      · subst ht
        rw [setCreate_key_obj] at h
        split at h
        · rename_i c hc
          split at h
          · rename_i c2 hs
            simp only [Option.map_eq_some'] at h
            obtain ⟨fs', hw, ht'⟩ := h
            subst ht'
            unfold getLoc
            show (lookupS k fs').bind (getLoc rest) = some v
            rw [writeS_lookup_self hw, Option.some_bind]
            exact ih hs
          · cases h
        · rename_i hnone
          split at h
          · rename_i c2 hs
            cases h
            unfold getLoc
            show (lookupS k (fs ++ [(k, c2)])).bind (getLoc rest) = some v
            rw [lookupS_append_last c2 hnone, Option.some_bind]
            exact ih hs
          · cases h
      · subst ht
        rw [setCreate_key_null] at h
        split at h
        · rename_i c2 hs
          cases h
          unfold getLoc
          show (lookupS k [(k, c2)]).bind (getLoc rest) = some v
          rw [lookupS_cons, if_pos (by simp), Option.some_bind]
          exact ih hs
        · cases h
    | idx i =>
      obtain ⟨xs, ht⟩ := setCreate_idx_kinds h
      subst ht
      rw [setCreate_idx_arr] at h
      split at h
      · cases h
      · rename_i c hc
        split at h
        · cases h
        · rename_i c2 hs
          simp only [Option.map_eq_some'] at h
          obtain ⟨xs', hw, ht'⟩ := h
          subst ht'
          unfold getLoc
          show (xs'.get? i).bind (getLoc rest) = some v
          rw [writeElemS_get_self hw, Option.some_bind]
          exact ih hs

theorem getLoc_setCreate_frame :
    ∀ {p : List Seg} {v t t' : SNode}, setCreate p v t = some t' →
    ∀ {q : List Seg}, segIndep p q = true → getLoc q t' = getLoc q t := by
  intro p
  induction p with
  | nil =>
    intro v t t' h q hq
    rw [segIndep_nil_left] at hq
    cases hq
  | cons s rest ih =>
    intro v t t' h q hq
    cases q with
    | nil => rw [segIndep_nil_right] at hq; cases hq
    | cons s' q' =>
      rw [segIndep_cons] at hq
      have hq' : q' ≠ [] ∨ ¬ s = s' := by
        by_cases hss : s = s'
        · rw [if_pos hss] at hq
          exact Or.inl (segIndep_ne_nil hq).2
        · exact Or.inr hss
      cases s with
      | key k =>
        rcases setCreate_key_kinds h with ⟨fs, ht⟩ | ht
        · subst ht
          rw [setCreate_key_obj] at h
          split at h
          · rename_i c hc
            split at h
            · rename_i c2 hs
              simp only [Option.map_eq_some'] at h
              obtain ⟨fs', hw, ht'⟩ := h
              subst ht'
              unfold getLoc
              cases s' with
              | key k' =>
                by_cases hkk : k' = k
                · subst hkk
                  rw [if_pos rfl] at hq
                  show (lookupS k' fs').bind (getLoc q') = (lookupS k' fs).bind (getLoc q')
                  rw [writeS_lookup_self hw, hc, Option.some_bind, Option.some_bind]
                  exact ih hs hq
                · show (lookupS k' fs').bind (getLoc q') = (lookupS k' fs).bind (getLoc q')
                  rw [writeS_lookup_other hw k' hkk]
              | idx j => rfl
            · cases h
          · rename_i hnone
            split at h
            · rename_i c2 hs
              cases h
              unfold getLoc
              cases s' with
              | key k' =>
                by_cases hkk : k' = k
                · subst hkk
                  rw [if_pos rfl] at hq
                  show (lookupS k' (fs ++ [(k', c2)])).bind (getLoc q') =
                    (lookupS k' fs).bind (getLoc q')
                  rw [lookupS_append_last c2 hnone, hnone, Option.some_bind, Option.none_bind]
                  rw [ih hs hq]
                  exact getLoc_ne_nil_obj_nil (segIndep_ne_nil hq).2
                · show (lookupS k' (fs ++ [(k, c2)])).bind (getLoc q') =
                    (lookupS k' fs).bind (getLoc q')
                  rw [lookupS_append_other c2 hkk]
              | idx j => rfl
            · cases h
        · subst ht
          rw [setCreate_key_null] at h
          split at h
          · rename_i c2 hs
            cases h
            rw [getLoc_cons_null]
            unfold getLoc
            cases s' with
            | key k' =>
              by_cases hkk : k' = k
              · subst hkk
                rw [if_pos rfl] at hq
                show (lookupS k' [(k', c2)]).bind (getLoc q') = none
                rw [lookupS_cons, if_pos (by simp), Option.some_bind]
                rw [ih hs hq]
                exact getLoc_ne_nil_obj_nil (segIndep_ne_nil hq).2
              · show (lookupS k' [(k, c2)]).bind (getLoc q') = none
                rw [lookupS_cons, if_neg (by simp [Ne.symm hkk])]
                rfl
            | idx j => rfl
          · cases h
      | idx i =>
        obtain ⟨xs, ht⟩ := setCreate_idx_kinds h
        subst ht
        rw [setCreate_idx_arr] at h
        split at h
        · cases h
        · rename_i c hc
          split at h
          · cases h
          · rename_i c2 hs
            simp only [Option.map_eq_some'] at h
            obtain ⟨xs', hw, ht'⟩ := h
            subst ht'
            unfold getLoc
            cases s' with
            | key k' => rfl
            | idx j =>
              by_cases hjj : j = i
              · subst hjj
                rw [if_pos rfl] at hq
                show (xs'.get? j).bind (getLoc q') = (xs.get? j).bind (getLoc q')
                rw [writeElemS_get_self hw, hc, Option.some_bind, Option.some_bind]
                exact ih hs hq
              · show (xs'.get? j).bind (getLoc q') = (xs.get? j).bind (getLoc q')
                rw [writeElemS_get_other hw j hjj]

theorem processAllSpec_append (load : SpecConfig → String → Except SErr SNode)
    (cfg : SpecConfig) (dir : String) :
    ∀ (l1 l2 : List SRef) (st out : SNode),
    processAllSpec load cfg dir (l1 ++ l2) st = .ok out →
    ∃ mid, processAllSpec load cfg dir l1 st = .ok mid ∧
      processAllSpec load cfg dir l2 mid = .ok out := by
  intro l1
  induction l1 with
  | nil =>
    intro l2 st out h
    exact ⟨st, rfl, h⟩
  | cons r rest ih =>
    intro l2 st out h
    rw [List.cons_append] at h
    unfold processAllSpec at h
    split at h
    · cases h
    · rename_i st2 hstep
      obtain ⟨mid, h1, h2⟩ := ih l2 st2 out h
      refine ⟨mid, ?_, h2⟩
      unfold processAllSpec
      rw [hstep]
      exact h1

theorem processRefSpec_local_skip {load : SpecConfig → String → Except SErr SNode}
    {cfg : SpecConfig} {dir : String} {st : SNode} {r : SRef}
    (hloc : isLocalReference r.path = true) (hno : cfg.inlineLocal = false) :
    processRefSpec load cfg dir st r = .ok st := by
  unfold processRefSpec
  rw [hloc, hno]
  simp

theorem processRefSpec_remote {load : SpecConfig → String → Except SErr SNode}
    {cfg : SpecConfig} {dir : String} {st : SNode} {r : SRef} {st2 : SNode}
    (hrem : isLocalReference r.path = false)
    (h : processRefSpec load cfg dir st r = .ok st2) :
    ∃ rdoc target st1,
      load { inlineLocal := true, keepLocal := cfg.keepLocal }
        (Oas.goJoinPath dir (getDocumentPath r.path)) = .ok rdoc ∧
      getPtr rdoc r.path = some target ∧
      setCreate (ptrSegs (convertRemoteToLocalPath r.path)) target st = some st1 ∧
      setLoc r.loc (SNode.ref (convertRemoteToLocalPath r.path)) st1 = some st2 := by
  unfold processRefSpec at h
  rw [hrem] at h
  simp only [Bool.false_eq_true, if_false] at h
  split at h
  · cases h
  · rename_i rdoc hload
    split at h
    · cases h
    · rename_i target htgt
      split at h
      · cases h
      · rename_i st1 hcreate
        split at h
        · cases h
        · rename_i stt hset
          cases h
          exact ⟨rdoc, target, st1, hload, htgt, hcreate, hset⟩

theorem processRefSpec_local {load : SpecConfig → String → Except SErr SNode}
    {cfg : SpecConfig} {dir : String} {st : SNode} {r : SRef} {st2 : SNode}
    (hloc : isLocalReference r.path = true) (hinl : cfg.inlineLocal = true)
    (hkeep : cfg.keepLocal = false)
    (h : processRefSpec load cfg dir st r = .ok st2) :
    ∃ target st1,
      getPtr st r.path = some target ∧
      setLoc r.loc target st = some st1 ∧
      setLoc (ptrSegs r.path) SNode.null st1 = some st2 := by
  unfold processRefSpec at h
  rw [hloc, hinl] at h
  simp only [if_pos] at h
  split at h
  · cases h
  · rename_i target htgt
    split at h
    · cases h
    · rename_i st1 hset
      rw [hkeep] at h
      simp only [Bool.false_eq_true, if_false] at h
      split at h
      · cases h
      · rename_i stt hclear
        cases h
        exact ⟨target, st1, htgt, hset, hclear⟩

theorem processRefSpec_frame {load : SpecConfig → String → Except SErr SNode}
    {cfg : SpecConfig} {dir : String} {st : SNode} {r : SRef} {st' : SNode}
    (h : processRefSpec load cfg dir st r = .ok st')
    {q : List Seg} (hw : ∀ w ∈ writesOfSpec cfg r, segIndep w q = true) :
    getLoc q st' = getLoc q st := by
  unfold processRefSpec at h
  by_cases hloc : isLocalReference r.path
  · rw [hloc] at h
    simp only [if_pos] at h
    by_cases hinl : cfg.inlineLocal
    · rw [hinl] at h
      simp only [if_pos] at h
      split at h
      · cases h
      · rename_i target htgt
        split at h
        · cases h
        · rename_i st1 hset
          by_cases hkeep : cfg.keepLocal
          · rw [hkeep] at h
            simp only [if_pos] at h
            cases h
            exact getLoc_setLoc_frame hset
              (hw r.loc (by simp [writesOfSpec, hloc, hinl, hkeep]))
          · rw [Bool.not_eq_true] at hkeep
            rw [hkeep] at h
            simp only [Bool.false_eq_true, if_false] at h
            split at h
            · cases h
            · rename_i stt hclear
              cases h
              rw [getLoc_setLoc_frame hclear
                  (hw (ptrSegs r.path) (by simp [writesOfSpec, hloc, hinl, hkeep])),
                getLoc_setLoc_frame hset
                  (hw r.loc (by simp [writesOfSpec, hloc, hinl, hkeep]))]
    · rw [Bool.not_eq_true] at hinl
      rw [hinl] at h
      simp only [Bool.false_eq_true, if_false] at h
      cases h
      rfl
  · rw [Bool.not_eq_true] at hloc
    rw [hloc] at h
    simp only [Bool.false_eq_true, if_false] at h
    split at h
    · cases h
    · rename_i rdoc hload
      split at h
      · cases h
      · rename_i target htgt
        split at h
        · cases h
        · rename_i st1 hcreate
          split at h
          · cases h
          · rename_i stt hset
            cases h
            rw [getLoc_setLoc_frame hset (hw r.loc (by simp [writesOfSpec, hloc])),
              getLoc_setCreate_frame hcreate
                (hw (ptrSegs (convertRemoteToLocalPath r.path))
                  (by simp [writesOfSpec, hloc]))]

theorem processAllSpec_frame {load : SpecConfig → String → Except SErr SNode}
    {cfg : SpecConfig} {dir : String} :
    ∀ {l : List SRef} {st out : SNode},
    processAllSpec load cfg dir l st = .ok out →
    ∀ {q : List Seg},
    (∀ r' ∈ l, ∀ w ∈ writesOfSpec cfg r', segIndep w q = true) →
    getLoc q out = getLoc q st := by
  intro l
  induction l with
  | nil =>
    intro st out h q hw
    cases h
    rfl
  | cons r rest ih =>
    intro st out h q hw
    unfold processAllSpec at h
    split at h
    · cases h
    · rename_i st2 hstep
      rw [ih h (fun r' hr' => hw r' (List.mem_cons_of_mem r hr'))]
      exact processRefSpec_frame hstep (hw r (List.mem_cons_self r rest))

theorem segIndep_symm : ∀ (p q : List Seg), segIndep p q = segIndep q p := by
  intro p
  induction p with
  | nil =>
    intro q
    rw [segIndep_nil_left, segIndep_nil_right]
  | cons a as2 ih =>
    intro q
    cases q with
    | nil => rw [segIndep_nil_left, segIndep_nil_right]
    | cons b bs =>
      rw [segIndep_cons, segIndep_cons]
      by_cases hab : a = b
      · subst hab
        rw [if_pos rfl, if_pos rfl]
        exact ih bs
      · rw [if_neg hab, if_neg (fun hh => hab hh.symm)]

/-- Claim C1 amended (settled against the orchestrator modelled from the
spec, the final implementation being absent from the source snapshot):
after a successful resolution, every discovered remote reference whose
promoted pointer path does not interfere with the reference's own
location (`hsep`), and whose promoted path and location are not touched
by the writes of any later-processed reference (`hpost`), is rewritten to
the promoted local pointer (`convertRemoteToLocalPath`), and that local
path resolves inside the same document to the value fetched from the
loaded (inline-local-forced) referenced document.  Without those
non-interference conditions the property fails:
`claim_C1_counterexample`. -/
theorem claim_C1_amended (fuel : Nat) (fs : sFS) (cfg : SpecConfig) (dir : String)
    (root out : SNode) (refs0 : List SRef) (pre post : List SRef) (r : SRef)
    (hdisc : sdiscover fuel [] root = some refs0)
    (hsplit : specSortRefs refs0 = pre ++ r :: post)
    (hrun : resolveSpec fuel fs cfg dir root = .ok out)
    (hremote : isLocalReference r.path = false)
    (hsep : segIndep (ptrSegs (convertRemoteToLocalPath r.path)) r.loc = true)
    (hpost : ∀ r' ∈ post, ∀ w ∈ writesOfSpec cfg r',
      segIndep w (ptrSegs (convertRemoteToLocalPath r.path)) = true ∧
      segIndep w r.loc = true) :
    ∃ rdoc target,
      loadDocSpec fuel fs { inlineLocal := true, keepLocal := cfg.keepLocal }
        (Oas.goJoinPath dir (getDocumentPath r.path)) = .ok rdoc ∧
      getPtr rdoc r.path = some target ∧
      getLoc r.loc out = some (SNode.ref (convertRemoteToLocalPath r.path)) ∧
      getLoc (ptrSegs (convertRemoteToLocalPath r.path)) out = some target := by
  unfold resolveSpec resolveSpecCore at hrun
  rw [hdisc] at hrun
  have hrun2 : processAllSpec (loadDocSpec fuel fs) cfg dir (specSortRefs refs0) root =
      .ok out := hrun
  rw [hsplit] at hrun2
  obtain ⟨mid, hpre, hmid⟩ := processAllSpec_append _ _ _ pre (r :: post) root out hrun2
  unfold processAllSpec at hmid
  split at hmid
  · cases hmid
  · rename_i st2 hstep
    obtain ⟨rdoc, target, st1, hload, htgt, hcreate, hset⟩ :=
      processRefSpec_remote hremote hstep
    refine ⟨rdoc, target, hload, htgt, ?_, ?_⟩
    · rw [processAllSpec_frame hmid (fun r' hr' w hw => (hpost r' hr' w hw).2)]
      exact getLoc_setLoc_self hset
    · rw [processAllSpec_frame hmid (fun r' hr' w hw => (hpost r' hr' w hw).1)]
      rw [getLoc_setLoc_frame hset
        (by rw [segIndep_symm]; exact hsep)]
      exact getLoc_setCreate_self hcreate

/-- Claim C3 amended (settled against the orchestrator modelled from the
spec): with inline-local true and keep-local false, after a successful
resolution every discovered local reference whose target path does not
interfere with the reference's own location (`hsep`), and whose location
and target are untouched by later-processed references (`hpost`), is
replaced by the copy of its target's content current when it was
processed, and the original target location is cleared to the zero value.
Without the non-interference conditions the property fails:
`claim_C3_counterexample`. -/
theorem claim_C3_amended (fuel : Nat) (fs : sFS) (cfg : SpecConfig) (dir : String)
    (root out : SNode) (refs0 : List SRef) (pre post : List SRef) (r : SRef)
    (hdisc : sdiscover fuel [] root = some refs0)
    (hsplit : specSortRefs refs0 = pre ++ r :: post)
    (hrun : resolveSpec fuel fs cfg dir root = .ok out)
    (hloc : isLocalReference r.path = true)
    (hinl : cfg.inlineLocal = true) (hkeep : cfg.keepLocal = false)
    (hsep : segIndep (ptrSegs r.path) r.loc = true)
    (hpost : ∀ r' ∈ post, ∀ w ∈ writesOfSpec cfg r',
      segIndep w (ptrSegs r.path) = true ∧ segIndep w r.loc = true) :
    ∃ stmid target,
      processAllSpec (loadDocSpec fuel fs) cfg dir pre root = .ok stmid ∧
      getPtr stmid r.path = some target ∧
      getLoc r.loc out = some target ∧
      getLoc (ptrSegs r.path) out = some SNode.null := by
  unfold resolveSpec resolveSpecCore at hrun
  rw [hdisc] at hrun
  have hrun2 : processAllSpec (loadDocSpec fuel fs) cfg dir (specSortRefs refs0) root =
      .ok out := hrun
  rw [hsplit] at hrun2
  obtain ⟨mid, hpre, hmid⟩ := processAllSpec_append _ _ _ pre (r :: post) root out hrun2
  unfold processAllSpec at hmid
  split at hmid
  · cases hmid
  · rename_i st2 hstep
    obtain ⟨target, st1, htgt, hset, hclear⟩ := processRefSpec_local hloc hinl hkeep hstep
    refine ⟨mid, target, hpre, htgt, ?_, ?_⟩
    · rw [processAllSpec_frame hmid (fun r' hr' w hw => (hpost r' hr' w hw).2)]
      rw [getLoc_setLoc_frame hclear hsep]
      exact getLoc_setLoc_self hset
    · rw [processAllSpec_frame hmid (fun r' hr' w hw => (hpost r' hr' w hw).1)]
      exact getLoc_setLoc_self hclear


/-- Claim C1 counterexample: a remote reference sitting exactly at its own
promoted location (`components.responses.R` holding
`b.yaml#/components/responses/R`).  Resolution first materialises the
remote target at the promoted path, then rewrites the reference's own
node — the same location — to the promoted local pointer, overwriting the
copy: the promoted local path now resolves to a self-referential pointer,
not to a copy of the original remote target's content, so the claim's
resolves-to-a-copy conjunct is false as stated. -/
theorem claim_C1_counterexample :
    Spec.resolveSpec 6 SpecEx.fsSpec ⟨false, false⟩ "." SpecEx.selfPromote =
      .ok (Spec.SNode.obj [("components", Spec.SNode.obj [("responses",
        Spec.SNode.obj [("R", Spec.SNode.ref "#/components/responses/R")])])]) ∧
    Spec.getLoc (Spec.ptrSegs (convertRemoteToLocalPath "b.yaml#/components/responses/R"))
      (Spec.SNode.obj [("components", Spec.SNode.obj [("responses",
        Spec.SNode.obj [("R", Spec.SNode.ref "#/components/responses/R")])])]) =
      some (Spec.SNode.ref "#/components/responses/R") ∧
    Spec.getPtr SpecEx.bSpec "b.yaml#/components/responses/R" =
      some (Spec.SNode.scalar "remote leaf") ∧
    Spec.SNode.ref "#/components/responses/R" ≠ Spec.SNode.scalar "remote leaf" :=
  ⟨rfl, rfl, rfl, fun h => nomatch h⟩

theorem claim_C1_amended_witness :
    Spec.sdiscover 6 [] SpecEx.rootPromote =
      some [⟨[Spec.Seg.key "paths", Spec.Seg.key "/p"], "b.yaml#/components/responses/R"⟩] ∧
    Spec.specSortRefs
        [⟨[Spec.Seg.key "paths", Spec.Seg.key "/p"], "b.yaml#/components/responses/R"⟩] =
      [] ++ (⟨[Spec.Seg.key "paths", Spec.Seg.key "/p"],
        "b.yaml#/components/responses/R"⟩ : Spec.SRef) :: [] ∧
    (∃ rdoc target,
      Spec.loadDocSpec 6 SpecEx.fsSpec { inlineLocal := true, keepLocal := false }
        (Oas.goJoinPath "." (getDocumentPath "b.yaml#/components/responses/R")) = .ok rdoc ∧
      Spec.getPtr rdoc "b.yaml#/components/responses/R" = some target ∧
      Spec.getLoc [Spec.Seg.key "paths", Spec.Seg.key "/p"]
        (Spec.SNode.obj
          [("paths", Spec.SNode.obj [("/p", Spec.SNode.ref "#/components/responses/R")]),
           ("components", Spec.SNode.obj [("responses",
             Spec.SNode.obj [("R", Spec.SNode.scalar "remote leaf")])])]) =
        some (Spec.SNode.ref (convertRemoteToLocalPath "b.yaml#/components/responses/R")) ∧
      Spec.getLoc
        (Spec.ptrSegs (convertRemoteToLocalPath "b.yaml#/components/responses/R"))
        (Spec.SNode.obj
          [("paths", Spec.SNode.obj [("/p", Spec.SNode.ref "#/components/responses/R")]),
           ("components", Spec.SNode.obj [("responses",
             Spec.SNode.obj [("R", Spec.SNode.scalar "remote leaf")])])]) = some target) :=
  ⟨rfl, rfl,
    claim_C1_amended 6 SpecEx.fsSpec ⟨false, false⟩ "."
      SpecEx.rootPromote _ _ [] [] _ rfl rfl rfl rfl (by decide)
      (fun r2 hr2 => absurd hr2 (List.not_mem_nil r2))⟩

/-- Claim C3 counterexample: a local reference whose target path is its
own location (`a` holding `#/a`).  Inlining writes the target's current
content (the reference node itself) back to `a`, and the subsequent clear
of the original target location — the same `a` — zeroes it: the node ends
as the zero value, not as the copy of its target's then-current content,
so the claim's two conjuncts cannot both hold at this input. -/
theorem claim_C3_counterexample :
    Spec.resolveSpec 6 [] ⟨true, false⟩ "." SpecEx.selfInline =
      .ok (Spec.SNode.obj [("a", Spec.SNode.null)]) ∧
    Spec.getPtr SpecEx.selfInline "#/a" = some (Spec.SNode.ref "#/a") ∧
    Spec.getLoc [Spec.Seg.key "a"] (Spec.SNode.obj [("a", Spec.SNode.null)]) =
      some Spec.SNode.null ∧
    Spec.SNode.null ≠ Spec.SNode.ref "#/a" :=
  ⟨rfl, rfl, rfl, fun h => nomatch h⟩

theorem claim_C3_amended_witness :
    Spec.sdiscover 6 [] SpecEx.rootInline = some [⟨[Spec.Seg.key "a"], "#/b"⟩] ∧
    Spec.specSortRefs [⟨[Spec.Seg.key "a"], "#/b"⟩] =
      [] ++ (⟨[Spec.Seg.key "a"], "#/b"⟩ : Spec.SRef) :: [] ∧
    (∃ stmid target,
      Spec.processAllSpec (Spec.loadDocSpec 6 []) ⟨true, false⟩ "." [] SpecEx.rootInline =
        .ok stmid ∧
      Spec.getPtr stmid "#/b" = some target ∧
      Spec.getLoc [Spec.Seg.key "a"]
        (Spec.SNode.obj [("a", Spec.SNode.scalar "x"), ("b", Spec.SNode.null)]) = some target ∧
      Spec.getLoc (Spec.ptrSegs "#/b")
        (Spec.SNode.obj [("a", Spec.SNode.scalar "x"), ("b", Spec.SNode.null)]) =
        some Spec.SNode.null) :=
  ⟨rfl, rfl,
    claim_C3_amended 6 [] ⟨true, false⟩ "." SpecEx.rootInline _ _ [] [] _
      rfl rfl rfl rfl rfl rfl (by decide)
      (fun r2 hr2 => absurd hr2 (List.not_mem_nil r2))⟩
